import Mathlib

/-!
Rule tag synchronisation: a verification development.

A shallow embedding of the Go package `extV2` (configuration loader, rule
lister, rule matcher and rule tagger of the Datadog security-rule extension)
together with theorems about its merge policy, matching key, pagination loop,
tagging workflow, manifest loading and credential validation.

Conventions of the embedding.

* Go slices are Lean lists (a nil slice and an empty slice are both `[]`).
* Go `error` results are `Except String`, the string being the error text.
* Everything the program does not own is an explicit parameter: the remote
  API is a `Remote` (a state machine over an arbitrary state type, so that a
  call may change what later calls return), the file system, the clock, the
  JSON codec and `strings.ToLower` are the fields of a `Sys`.
* Calls made on the remote are recorded in an explicit call log.
* Text written to standard output or standard error is not modelled.
-/

namespace extV2

/-! ## Data model (`config.go`, `ruleMatcher.go`, `ruleTagger.go`) -/

/-- SimplifiedRule: a security monitoring rule reduced to its essential fields. -/
structure SimplifiedRule where
  ID : String
  IsDefault : Bool
  Name : String
  deriving DecidableEq, Repr

/-- PaginatedResult holds the results from all pages. -/
structure PaginatedResult where
  TotalRules : Nat
  TotalPages : Nat
  Rules : List SimplifiedRule
  deriving DecidableEq, Repr

/-- PaginationConfig holds pagination settings (`MaxPages = 0` means no limit). -/
structure PaginationConfig where
  PageSize : Int
  MaxPages : Int
  TagFilters : List String
  deriving DecidableEq, Repr

/-- TaggingConfig holds the configuration for rule tagging. -/
structure TaggingConfig where
  DryRun : Bool
  OverwriteTags : Bool
  IncludedTags : List String
  MaxConcurrency : Int
  deriving DecidableEq, Repr

/-- InputRule is a rule of the manifest (`input.json`). -/
structure InputRule where
  ID : String
  IsDefault : Bool
  Name : String
  Tags : List String
  deriving DecidableEq, Repr

/-- InputData is the structure of the manifest file. -/
structure InputData where
  TotalRules : Int
  ProcessedRules : Int
  FailedRules : List String
  Rules : List InputRule
  deriving DecidableEq, Repr

/-- MatchedRule pairs the remote id with the manifest's name, tags and flag. -/
structure MatchedRule where
  ID : String
  Name : String
  Tags : List String
  IsDefault : Bool
  deriving DecidableEq, Repr

/-- MatchResult is the final matching result. -/
structure MatchResult where
  TotalMatches : Nat
  TotalInputRules : Nat
  TotalResultRules : Nat
  MatchedRules : List MatchedRule
  deriving DecidableEq, Repr

/-- TaggingResult is the result of a single rule tagging operation. -/
structure TaggingResult where
  RuleID : String
  RuleName : String
  Success : Bool
  OldTags : List String
  NewTags : List String
  Error : String
  deriving DecidableEq, Repr

/-- BatchTaggingResult is the result of the batch tagging operation. -/
structure BatchTaggingResult where
  TotalRules : Nat
  SuccessfulTags : Nat
  FailedTags : Nat
  Results : List TaggingResult
  SkippedRules : List String
  deriving DecidableEq, Repr

/-! ## `MergeTags` (`ruleTagger.go`) -/

/-- The inner loop of `MergeTags`: scan `IncludedTags` until one equals `tag`
(`included = true; break`), otherwise `included` stays false. -/
def includedLoop (tag : String) : List String → Bool
  | [] => false
  | includedTag :: rest => if tag = includedTag then true else includedLoop tag rest

/-- MergeTags merges new tags with existing tags based on configuration.
In append mode the loop state is the pair `(tagMap, mergedTags)`; a Go
`map[string]bool` read with a missing key gives `false`, so `tagMap` is a
total function, initially constantly false. -/
def MergeTags (existingTags newTags : List String) (config : TaggingConfig) : List String :=
  if config.OverwriteTags then
    newTags.foldl
      (fun filteredTags tag =>
        if !(includedLoop tag config.IncludedTags) then filteredTags ++ [tag] else filteredTags)
      []
  else
    let st0 : (String → Bool) × List String := (fun _ => false, [])
    let st1 := existingTags.foldl
      (fun st tag =>
        if !(st.1 tag) then (Function.update st.1 tag true, st.2 ++ [tag]) else st)
      st0
    let st2 := newTags.foldl
      (fun st tag =>
        if !(includedLoop tag config.IncludedTags) && !(st.1 tag) then
          (Function.update st.1 tag true, st.2 ++ [tag])
        else st)
      st1
    st2.2

/-- The deduplication of the specification: keep the first occurrence of each
tag, in order. -/
def keepFirst : List String → List String
  | [] => []
  | x :: xs => x :: (keepFirst xs).filter (fun y => decide (y ≠ x))

/-- The append-policy merge as the specification words it:
`dedup(existing) ++ (desired − excluded − existing)`, the difference being a
set listed in first-seen order. -/
def appendSpec (existing desired excluded : List String) : List String :=
  keepFirst existing ++
    keepFirst (desired.filter (fun t => decide (t ∉ excluded ∧ t ∉ existing)))

/-- The overwrite-policy merge as the specification words it:
`desired − excluded`, in the original order. -/
def overwriteSpec (desired excluded : List String) : List String :=
  desired.filter (fun t => decide (t ∉ excluded))

/-! ## The environment: remote API, operating system, libraries -/

/-- A JSON value as `encoding/json` decodes it into an `interface{}`: an
object is a Go map, given by its entries (in a decoded value no key occurs
twice; `mapValue` reads the first entry under a key). -/
inductive Json where
  | null
  | bool (b : Bool)
  | number (text : String)
  | string (s : String)
  | array (elems : List Json)
  | object (fields : List (String × Json))

/-- The response object the SDK returns from the list endpoint, given by what
`json.Marshal` makes of it: an encoding error or a JSON value. -/
structure ListRulesResponse where
  Marshal : Except String Json

/-- What `ProcessRuleListing` reads from a list response after its JSON round
trip: the `data` array, `none` when the decoded map has no `data` key or its
value is not an array. -/
structure ListResponse where
  data : Option (List Json)

/-- The standard-rule variant of the get-rule response, reduced to the tag
slice the program reads from it (`none` is a nil slice). -/
structure StandardRuleResponse where
  Tags : Option (List String)
  deriving DecidableEq, Repr

/-- The response of the get-rule endpoint, a one-of in the SDK: the pointer
`SecurityMonitoringStandardRuleResponse` is nil (`none`) when the answer is
not a standard rule (a signal-correlation rule, an unparsed object). -/
structure RuleResponse where
  SecurityMonitoringStandardRuleResponse : Option StandardRuleResponse
  deriving DecidableEq, Repr

/-- The calls the program makes on the remote API, with their arguments. The
update payload has only its tag field populated, so it is given by the tags. -/
inductive ApiCall where
  | list (pageSize : Int) (pageNumber : Nat)
  | get (ruleID : String)
  | update (ruleID : String) (tags : List String)
  deriving DecidableEq, Repr

/-- The remote API (`datadogV2.SecurityMonitoringApi`) as a deterministic
state machine over an arbitrary state `σ`: each endpoint maps the current
state and the call's arguments to an outcome and a next state. -/
structure Remote (σ : Type) where
  ListSecurityMonitoringRules : σ → Int → Nat → Except String ListRulesResponse × σ
  GetSecurityMonitoringRule : σ → String → Except String RuleResponse × σ
  UpdateSecurityMonitoringRule : σ → String → List String → Except String Unit × σ

/-- The operating system and the Go standard library, as far as the program
uses them: `strings.ToLower`, the formatted local time, `filepath.Dir`,
`filepath.Join`, `os.MkdirAll`, `os.WriteFile`, `os.Stat` (reduced to whether
the error is a not-exist error), `os.ReadFile`, `json.MarshalIndent` and
`json.Unmarshal` into an `InputData`. -/
structure Sys where
  ToLower : String → String
  Now : String
  Dir : String → String
  Join : String → String → String
  MkdirAll : String → Except String Unit
  WriteFile : String → String → Except String Unit
  NotExist : String → Bool
  ReadFile : String → Except String String
  MarshalIndent : (α : Type) → α → Except String String
  Unmarshal : String → Except String InputData

/-- Go `strings.Contains`: `substr` occurs in `s` as a contiguous block. -/
def Contains (s substr : String) : Bool :=
  s.data.tails.any (fun t => substr.data.isPrefixOf t)

/-- The read `m[key]` of a decoded JSON object (a `map[string]interface{}`). -/
def mapValue : List (String × Json) → String → Option Json
  | [], _ => none
  | (k, v) :: rest, key => if k = key then some v else mapValue rest key

/-- Go `json.Unmarshal` of the encoding of a JSON value into a
`map[string]interface{}`: an object gives its map, `null` leaves the map
empty, any other value is an error. -/
def unmarshalMap : Json → Except String (List (String × Json))
  | .object fields => .ok fields
  | .null => .ok []
  | .bool _ => .error "json: cannot unmarshal bool into Go value of type map[string]interface \x7b\x7d"
  | .number _ =>
    .error "json: cannot unmarshal number into Go value of type map[string]interface \x7b\x7d"
  | .string _ =>
    .error "json: cannot unmarshal string into Go value of type map[string]interface \x7b\x7d"
  | .array _ =>
    .error "json: cannot unmarshal array into Go value of type map[string]interface \x7b\x7d"

/-! ## Result persistence (`output.go`) -/

/-- SaveToJSONFile saves the formatted result to a JSON file. -/
def SaveToJSONFile (sys : Sys) (data filename : String) : Except String Unit :=
  let dir := sys.Dir filename
  let made : Except String Unit :=
    if dir ≠ "." ∧ dir ≠ "" then
      match sys.MkdirAll dir with
      | .error err => .error ("failed to create directory " ++ dir ++ ": " ++ err)
      | .ok _ => .ok ()
    else .ok ()
  match made with
  | .error err => .error err
  | .ok _ =>
    match sys.WriteFile filename data with
    | .error err => .error ("failed to write file " ++ filename ++ ": " ++ err)
    | .ok _ => .ok ()

/-- GenerateTimestampedFilename generates a filename with timestamp. -/
def GenerateTimestampedFilename (sys : Sys) (pfx extension : String) : String :=
  sys.Now ++ "_" ++ pfx ++ "." ++ extension

/-- FormatSimplifiedResultAny pretty-prints any result as JSON. -/
def FormatSimplifiedResultAny (sys : Sys) {α : Type} (result : α) : Except String String :=
  sys.MarshalIndent α result

/-- SaveResultToFile formats a result and writes it under the output
directory; it returns the file name. -/
def SaveResultToFile (sys : Sys) {α : Type} (batchResult : α) (pfx outputDir : String)
    (formatter : α → Except String String) : Except String String :=
  let filename := GenerateTimestampedFilename sys pfx "json"
  let filename := if outputDir ≠ "" then sys.Join outputDir filename else filename
  match formatter batchResult with
  | .error err => .error ("failed to format batch result: " ++ err)
  | .ok formattedResult =>
    match SaveToJSONFile sys formattedResult filename with
    | .error err => .error err
    | .ok _ => .ok filename

/-! ## Rule lister (`ruleGetter.go`, `ddApiCallHandler.go`) -/

/-- CallWithErrorHandling executes an API call; on an error it only writes to
standard error, and it hands the call's outcome back unchanged. -/
def CallWithErrorHandling {α : Type} (outcome : α) : α := outcome

/-- The function extractSimplifiedRule extracts only id, isDefault and name
from a rule object: it decodes the element into a map, which fails for an
element that is neither an object nor `null`; a field that is absent or fails
its type assertion keeps its zero value. (`json.Marshal` of a decoded value
does not fail.) -/
def extractSimplifiedRule (ruleData : Json) : Except String SimplifiedRule :=
  match unmarshalMap ruleData with
  | .error err => .error ("failed to unmarshal rule data: " ++ err)
  | .ok ruleMap =>
    .ok { ID := match mapValue ruleMap "id" with
                | some (.string id) => id
                | _ => "",
          IsDefault := match mapValue ruleMap "isDefault" with
                       | some (.bool isDefault) => isDefault
                       | _ => false,
          Name := match mapValue ruleMap "name" with
                  | some (.string name) => name
                  | _ => "" }

/-- The inner loop of `extractTagsFromRule`: the elements of the tag array
that are strings. -/
def tagStrings : List Json → List String
  | [] => []
  | .string tagStr :: rest => tagStr :: tagStrings rest
  | _ :: rest => tagStrings rest

/-- The function extractTagsFromRule extracts the tags of a rule object: it
decodes the element into a map, which fails for an element that is neither an
object nor `null`; the tags are the string elements of the `tags` array,
nothing when there is no such array. -/
def extractTagsFromRule (ruleData : Json) : Except String (List String) :=
  match unmarshalMap ruleData with
  | .error err => .error ("failed to unmarshal rule data: " ++ err)
  | .ok ruleMap =>
    match mapValue ruleMap "tags" with
    | some (.array tagArray) => .ok (tagStrings tagArray)
    | _ => .ok []

/-- The function matchesTagFilters checks if any of the rule's tags contains
any of the configured filters (both lowered); no filters means every rule. -/
def matchesTagFilters (sys : Sys) (ruleTags tagFilters : List String) : Bool :=
  if tagFilters.length = 0 then true
  else
    ruleTags.any (fun ruleTag =>
      tagFilters.any (fun filter => Contains (sys.ToLower ruleTag) (sys.ToLower filter)))

/-- GetExistingStandardRuleTags fetches the existing tags of a rule: one get
call; a nil tag slice reads as the empty list. The source reads
`rule.SecurityMonitoringStandardRuleResponse.Tags` without testing the
pointer: when the answer is not a standard rule the program panics, which is
the outcome `none`. -/
def GetExistingStandardRuleTags {σ : Type} (api : Remote σ) (s : σ) (ruleID : String) :
    Option (Except String (List String)) × σ :=
  match api.GetSecurityMonitoringRule s ruleID with
  | (.error err, s1) => (some (.error ("failed to get rule " ++ ruleID ++ ": " ++ err)), s1)
  | (.ok rule, s1) =>
    match rule.SecurityMonitoringStandardRuleResponse with
    | none => (none, s1)
    | some standard =>
      match standard.Tags with
      | some tags => (some (.ok tags), s1)
      | none => (some (.ok []), s1)

/-- The JSON round trip of `ProcessRuleListing` on a list response: encode
it, decode the encoding into a map, and read the `data` key as an array. -/
def decodeResponse (resp : ListRulesResponse) : Except String ListResponse :=
  match resp.Marshal with
  | .error err => .error ("failed to marshal response: " ++ err)
  | .ok respBytes =>
    match unmarshalMap respBytes with
    | .error err => .error ("failed to unmarshal response: " ++ err)
    | .ok responseData =>
      match mapValue responseData "data" with
      | some (.array data) => .ok { data := some data }
      | _ => .ok { data := none }

/-- The variables of the per-page loop of `ProcessRuleListing`. -/
structure PageLoop where
  pageRules : List SimplifiedRule
  filteredCount : Nat
  totalProcessedRules : Nat
  deriving DecidableEq, Repr

/-- The body of `for _, ruleData := range data` in `ProcessRuleListing`. -/
def pageLoop (sys : Sys) (config : PaginationConfig) : List Json → PageLoop → PageLoop
  | [], st => st
  | ruleData :: rest, st =>
    let st := { st with totalProcessedRules := st.totalProcessedRules + 1 }
    match extractTagsFromRule ruleData with
    | .error _ => pageLoop sys config rest st
    | .ok ruleTags =>
      if !(matchesTagFilters sys ruleTags config.TagFilters) then pageLoop sys config rest st
      else
        let st := { st with filteredCount := st.filteredCount + 1 }
        match extractSimplifiedRule ruleData with
        | .error _ => pageLoop sys config rest st
        | .ok simplifiedRule =>
          pageLoop sys config rest { st with pageRules := st.pageRules ++ [simplifiedRule] }

/-- The variables of the pagination loop of `ProcessRuleListing`, with the
state of the remote and the log of the calls made so far. The page counter is
an `int64` in the source; one remote call is made per increment, so it stays
far below `2^63` and is a natural number here. -/
structure ListLoop (σ : Type) where
  result : PaginatedResult
  pageNumber : Nat
  ruleCounter : Nat
  totalProcessedRules : Nat
  remote : σ
  calls : List ApiCall

/-- The pagination loop `for { ... }` of `ProcessRuleListing`. The loop has no
bound of its own, so the embedding takes fuel: `none` is fuel exhausted,
`some (some err, st)` is an early `return nil, err` (the fetch failed, or the
response could not be encoded or decoded), `some (none, st)` is an exit
through one of the `break`s. -/
def listLoop {σ : Type} (sys : Sys) (api : Remote σ) (config : PaginationConfig) :
    Nat → ListLoop σ → Option (Option String × ListLoop σ)
  | 0, _ => none
  | fuel + 1, st =>
    match CallWithErrorHandling
        (api.ListSecurityMonitoringRules st.remote config.PageSize st.pageNumber) with
    | (.error err, s1) =>
      some (some ("failed to fetch page " ++ toString st.pageNumber ++ ": " ++ err),
        { st with remote := s1,
                  calls := st.calls ++ [ApiCall.list config.PageSize st.pageNumber] })
    | (.ok resp, s1) =>
      let st := { st with remote := s1,
                          calls := st.calls ++ [ApiCall.list config.PageSize st.pageNumber] }
      match decodeResponse resp with
      | .error err => some (some err, st)
      | .ok responseData =>
        match responseData.data with
        | none => some (none, st)
        | some data =>
          if data.length = 0 then some (none, st)
          else
            let page := pageLoop sys config data
              { pageRules := [], filteredCount := 0,
                totalProcessedRules := st.totalProcessedRules }
            let st := { st with
              result := { st.result with
                Rules := st.result.Rules ++ page.pageRules,
                TotalRules := st.result.TotalRules + data.length },
              ruleCounter := st.ruleCounter + page.filteredCount,
              totalProcessedRules := page.totalProcessedRules }
            if (data.length : Int) < config.PageSize then some (none, st)
            else
              let st := { st with
                pageNumber := st.pageNumber + 1,
                result := { st.result with TotalPages := st.result.TotalPages + 1 } }
              if config.MaxPages > 0 ∧ (st.pageNumber : Int) ≥ config.MaxPages then
                some (none, st)
              else listLoop sys api config fuel st

/-- ProcessRuleListing fetches all rules with pagination. It returns the
outcome, the final state of the remote and the calls made, or `none` when the
fuel does not suffice. A failure to save the result is only a warning. -/
def ProcessRuleListing {σ : Type} (fuel : Nat) (sys : Sys) (api : Remote σ) (s : σ)
    (config : PaginationConfig) : Option (Except String PaginatedResult × σ × List ApiCall) :=
  let ruleCondition := config.TagFilters.length
  match listLoop sys api config fuel
      { result := { TotalRules := 0, TotalPages := 0, Rules := [] },
        pageNumber := 0, ruleCounter := 0, totalProcessedRules := 0,
        remote := s, calls := [] } with
  | none => none
  | some (some err, st) => some (.error err, st.remote, st.calls)
  | some (none, st) =>
    let result :=
      if ruleCondition > 0 then { st.result with TotalRules := st.ruleCounter } else st.result
    match SaveResultToFile sys result "ListRulesResult" "output" (FormatSimplifiedResultAny sys) with
    | .error _ => some (.ok result, st.remote, st.calls)
    | .ok _ => some (.ok result, st.remote, st.calls)

/-! ### The vocabulary of the listing claims

The definitions below are not part of the program: they name what the claims
on the lister speak about (the page answered to the `i`-th request, the rows
of a page, the stop condition, the filter and the projection). -/

/-- The state of the remote when page `i` is requested, the pages
`0, 1, ..., i - 1` having been requested before, in that order. -/
def listStateAt {σ : Type} (api : Remote σ) (pageSize : Int) (s : σ) : Nat → σ
  | 0 => s
  | i + 1 =>
    (api.ListSecurityMonitoringRules (listStateAt api pageSize s i) pageSize i).2

/-- The answer of the remote to the request of page `i`, as the program
decodes it: the fetch error, the encoding or decoding error, or the page. -/
def listRespAt {σ : Type} (api : Remote σ) (pageSize : Int) (s : σ) (i : Nat) :
    Except String ListResponse :=
  match (api.ListSecurityMonitoringRules (listStateAt api pageSize s i) pageSize i).1 with
  | .error err => .error err
  | .ok resp => decodeResponse resp

/-- The rows of a page: its `data` array, no rows when there is none. -/
def ListResponse.rows (r : ListResponse) : List Json := r.data.getD []

/-- Whether a list is empty can be decided without comparing elements. -/
instance decidableEqNil {α : Type} (l : List α) : Decidable (l = []) :=
  match l with
  | [] => isTrue rfl
  | _ :: _ => isFalse (fun h => List.noConfusion h)

/-- The stop condition of the specification at page index `i`: the page is
empty, or it has fewer rows than `PageSize`, or `MaxPages` is positive and
`i + 1` reaches it. -/
def stopsAt (config : PaginationConfig) (pages : Nat → ListResponse) (i : Nat) : Bool :=
  decide ((pages i).rows = [] ∨ ((pages i).rows.length : Int) < config.PageSize ∨
    (config.MaxPages > 0 ∧ ((i : Int) + 1) ≥ config.MaxPages))

/-- Whether a fetched element decodes as a rule object, that is, whether the
extraction of its tags succeeds: it is a JSON object or `null`. -/
def decodesAsRule : Json → Bool
  | .object _ => true
  | .null => true
  | _ => false

/-- The fields of a fetched element: the entries of an object, none for any
other value. -/
def fieldsOf : Json → List (String × Json)
  | .object fields => fields
  | _ => []

/-- The tags of a fetched rule: the strings of its `tags` array. -/
def ruleTagsOf (ruleData : Json) : List String :=
  match mapValue (fieldsOf ruleData) "tags" with
  | some (.array tagArray) =>
    tagArray.filterMap (fun tag =>
      match tag with
      | .string tagStr => some tagStr
      | _ => none)
  | _ => []

/-- The projection of a fetched rule to `{id, isDefault, name}`: a field is
the value under its key when that is a string (a boolean for `isDefault`),
and the zero value otherwise. -/
def projectionOf (ruleData : Json) : SimplifiedRule :=
  { ID := match mapValue (fieldsOf ruleData) "id" with
          | some (.string id) => id
          | _ => "",
    IsDefault := match mapValue (fieldsOf ruleData) "isDefault" with
                 | some (.bool isDefault) => isDefault
                 | _ => false,
    Name := match mapValue (fieldsOf ruleData) "name" with
            | some (.string name) => name
            | _ => "" }

/-- The filter of the specification: the filter list is empty, or at least
one tag of the rule contains at least one filter as a substring, both taken
in lower case. -/
def passesFilters (sys : Sys) (tagFilters : List String) (ruleData : Json) : Bool :=
  decide (tagFilters = [] ∨
    ∃ tag ∈ ruleTagsOf ruleData, ∃ filter ∈ tagFilters,
      Contains (sys.ToLower tag) (sys.ToLower filter) = true)

/-! ### Test doubles

A fake system and a fake remote, used to run the program on concrete inputs. -/

/-- A fake system: lower-casing is ASCII lower-casing, the manifest file
exists and holds `manifest`, JSON encoding succeeds, and every file write
fails when `writeFails` is set. -/
def fakeSys (writeFails : Bool) (manifest : InputData) : Sys :=
  { ToLower := fun s => ⟨s.data.map Char.toLower⟩,
    Now := "2025-01-01_00-00-00",
    Dir := fun _ => "output",
    Join := fun dir file => dir ++ "/" ++ file,
    MkdirAll := fun _ => .ok (),
    WriteFile := fun _ _ => if writeFails then .error "disk full" else .ok (),
    NotExist := fun _ => false,
    ReadFile := fun _ => .ok "manifest",
    MarshalIndent := fun _ _ => .ok "json",
    Unmarshal := fun _ => .ok manifest }

/-- The response object whose encoding is the JSON object with the `data`
array of the page, or without a `data` key when the page has none. -/
def encodePage (page : ListResponse) : ListRulesResponse :=
  { Marshal := .ok (.object (match page.data with
      | some data => [("data", .array data)]
      | none => [])) }

/-- A fake remote without state: page `i` of the listing is `pages i`, the
rule `id` is answered by `rule id`, and an update succeeds when `updateOk`. -/
def fakeRemote (pages : Nat → ListResponse) (rule : String → Except String RuleResponse)
    (updateOk : Bool) : Remote Unit :=
  { ListSecurityMonitoringRules := fun _ _ pageNumber =>
      (.ok (encodePage (pages pageNumber)), ()),
    GetSecurityMonitoringRule := fun _ ruleID => (rule ruleID, ()),
    UpdateSecurityMonitoringRule := fun _ _ _ =>
      (if updateOk then .ok () else .error "update refused", ()) }

/-- Three fetched rules on two pages of size two: the tags of the first and
the third contain `prod` in some letter case, the second has no such tag; the
tag array of the first holds a number too, the third has no `isDefault`. -/
def fakePages : Nat → ListResponse
  | 0 => ⟨some [.object [("id", .string "x1"), ("isDefault", .bool false),
                  ("name", .string "R1"),
                  ("tags", .array [.string "env:PROD", .number "7"])],
               .object [("id", .string "x2"), ("isDefault", .bool true),
                  ("name", .string "R2"), ("tags", .array [.string "team:core"])]]⟩
  | 1 => ⟨some [.object [("id", .string "x3"), ("name", .string "R3"),
                  ("tags", .array [.string "Production"])]]⟩
  | _ => ⟨none⟩

/-- One page whose `data` array holds a string, which is not a rule object,
before a rule. -/
def fakeOddPages : Nat → ListResponse
  | 0 => ⟨some [.string "oops",
               .object [("id", .string "x1"), ("isDefault", .bool false),
                  ("name", .string "R1"), ("tags", .array [.string "env:prod"])]]⟩
  | _ => ⟨none⟩

/-! ## Rule matcher (`ruleMatcher.go`) -/

/-- A Go `map[string]V`: an association list with pairwise distinct keys. The
position of an entry carries no meaning; the order in which `range` visits the
entries is chosen by the runtime and is a parameter of `MatchRules`. -/
abbrev GoMap (V : Type) := List (String × V)

/-- The map read `m[key]` in its two-result form (`value, exists := m[key]`). -/
def GoMap.get? {V : Type} : GoMap V → String → Option V
  | [], _ => none
  | (k, v) :: rest, key => if k = key then some v else GoMap.get? rest key

/-- The map write `m[key] = value`: an existing entry is overwritten, a new key
is added. -/
def GoMap.set {V : Type} : GoMap V → String → V → GoMap V
  | [], key, value => [(key, value)]
  | (k, v) :: rest, key, value =>
    if k = key then (key, value) :: rest else (k, v) :: GoMap.set rest key value

/-- The lookup key `fmt.Sprintf("%s_%t", name, isDefault)`. -/
def ruleKey (name : String) (isDefault : Bool) : String :=
  name ++ "_" ++ (if isDefault then "true" else "false")

/-- The first indexing loop of `MatchRules`, over the manifest rules. -/
def indexInput (rules : List InputRule) (inputRuleMap : GoMap InputRule) : GoMap InputRule :=
  rules.foldl
    (fun inputRuleMap inputRule =>
      inputRuleMap.set (ruleKey inputRule.Name inputRule.IsDefault) inputRule)
    inputRuleMap

/-- The second indexing loop of `MatchRules`, over the listed rules. -/
def indexResult (rules : List SimplifiedRule) (resultRuleMap : GoMap SimplifiedRule) :
    GoMap SimplifiedRule :=
  rules.foldl
    (fun resultRuleMap resultRule =>
      resultRuleMap.set (ruleKey resultRule.Name resultRule.IsDefault) resultRule)
    resultRuleMap

/-- The variables of the match loop of `MatchRules`. -/
structure MatchLoop where
  MatchedRules : List MatchedRule
  matchedInputKeys : GoMap Bool
  matchedResultKeys : GoMap Bool
  deriving DecidableEq, Repr

/-- The loop `for key, inputRule := range inputRuleMap` of `MatchRules`, over
the entries in the order the runtime visits them. -/
def matchLoop (resultRuleMap : GoMap SimplifiedRule) :
    List (String × InputRule) → MatchLoop → MatchLoop
  | [], st => st
  | (key, inputRule) :: rest, st =>
    match resultRuleMap.get? key with
    | some resultRule =>
      let matchedRule : MatchedRule :=
        { ID := resultRule.ID, Name := inputRule.Name,
          Tags := inputRule.Tags, IsDefault := inputRule.IsDefault }
      matchLoop resultRuleMap rest
        { MatchedRules := st.MatchedRules ++ [matchedRule],
          matchedInputKeys := st.matchedInputKeys.set key true,
          matchedResultKeys := st.matchedResultKeys.set key true }
    | none => matchLoop resultRuleMap rest st

/-- MatchRules compares the manifest rules with the listing result.
`rangeOrder` is the order in which the runtime ranges over the manifest-side
index: it maps the entries of the map to the sequence in which they are
visited. -/
def MatchRules (rangeOrder : GoMap InputRule → List (String × InputRule))
    (inputData : InputData) (resultData : PaginatedResult) : Except String MatchResult :=
  let inputRuleMap := indexInput inputData.Rules []
  let resultRuleMap := indexResult resultData.Rules []
  let st := matchLoop resultRuleMap (rangeOrder inputRuleMap)
    { MatchedRules := [], matchedInputKeys := [], matchedResultKeys := [] }
  .ok { TotalMatches := st.MatchedRules.length,
        TotalInputRules := inputData.Rules.length,
        TotalResultRules := resultData.Rules.length,
        MatchedRules := st.MatchedRules }

/-- LoadInputJSON loads and parses the manifest file. -/
def LoadInputJSON (sys : Sys) (filename : String) : Except String InputData :=
  if sys.NotExist filename then .error ("file " ++ filename ++ " does not exist")
  else
    match sys.ReadFile filename with
    | .error err => .error ("failed to read file " ++ filename ++ ": " ++ err)
    | .ok data =>
      if data.utf8ByteSize = 0 then .error ("file " ++ filename ++ " is empty")
      else
        match sys.Unmarshal data with
        | .error err => .error ("failed to parse JSON from " ++ filename ++ ": " ++ err)
        | .ok inputData => .ok inputData

/-- ProcessRuleMatching processes the complete rule matching workflow: load
the manifest, match, save the result. -/
def ProcessRuleMatching (sys : Sys) (rangeOrder : GoMap InputRule → List (String × InputRule))
    (inputFilename : String) (resultData : PaginatedResult) : Except String MatchResult :=
  match LoadInputJSON sys inputFilename with
  | .error err => .error ("failed to load input JSON: " ++ err)
  | .ok inputData =>
    match MatchRules rangeOrder inputData resultData with
    | .error err => .error ("failed to match rules: " ++ err)
    | .ok matchResult =>
      match SaveResultToFile sys matchResult "MatchResult" "output"
          (FormatSimplifiedResultAny sys) with
      | .error err => .error ("failed to save match result: " ++ err)
      | .ok _ => .ok matchResult

/-! ## Rule tagger (`ruleTagger.go`) -/

/-- TagSingleStandardRule tags a single security monitoring rule. It returns
the tagging result, the next state of the remote and the calls it made; the
result is `none` when the fetch of the existing tags panics. -/
def TagSingleStandardRule {σ : Type} (api : Remote σ) (s : σ) (matchedRule : MatchedRule)
    (config : TaggingConfig) : Option TaggingResult × σ × List ApiCall :=
  let result : TaggingResult :=
    { RuleID := matchedRule.ID, RuleName := matchedRule.Name, Success := false,
      OldTags := [], NewTags := [], Error := "" }
  match GetExistingStandardRuleTags api s matchedRule.ID with
  | (none, s1) => (none, s1, [ApiCall.get matchedRule.ID])
  | (some (.error err), s1) =>
    (some { result with Error := "Failed to get existing tags: " ++ err }, s1,
      [ApiCall.get matchedRule.ID])
  | (some (.ok existingTags), s1) =>
    let result := { result with OldTags := existingTags }
    let newTags := MergeTags existingTags matchedRule.Tags config
    let result := { result with NewTags := newTags }
    if config.DryRun then
      (some { result with Success := true }, s1, [ApiCall.get matchedRule.ID])
    else
      match api.UpdateSecurityMonitoringRule s1 matchedRule.ID newTags with
      | (.error err, s2) =>
        (some { result with Error := "Failed to update rule: " ++ err }, s2,
          [ApiCall.get matchedRule.ID, ApiCall.update matchedRule.ID newTags])
      | (.ok _, s2) =>
        (some { result with Success := true }, s2,
          [ApiCall.get matchedRule.ID, ApiCall.update matchedRule.ID newTags])

/-- The variables of the loop of `TagRulesFromMatchResult`, with the state of
the remote and the log of the calls made so far. -/
structure TagLoop (σ : Type) where
  batchResult : BatchTaggingResult
  remote : σ
  calls : List ApiCall

/-- The loop `for i, matchedRule := range matchResult.MatchedRules` of
`TagRulesFromMatchResult`. It returns the batch result, the state of the
remote and the calls made; the batch result is `none` when the tagging of a
rule panics, which ends the loop and the program. -/
def tagLoop {σ : Type} (api : Remote σ) (config : TaggingConfig) :
    List MatchedRule → TagLoop σ → Option BatchTaggingResult × σ × List ApiCall
  | [], st => (some st.batchResult, st.remote, st.calls)
  | matchedRule :: rest, st =>
    if matchedRule.Tags.length = 0 then
      tagLoop api config rest
        { st with batchResult :=
            { st.batchResult with
              SkippedRules := st.batchResult.SkippedRules ++ [matchedRule.ID] } }
    else
      match TagSingleStandardRule api st.remote matchedRule config with
      | (none, s1, calls) => (none, s1, st.calls ++ calls)
      | (some result, s1, calls) =>
        let batchResult :=
          { st.batchResult with Results := st.batchResult.Results ++ [result] }
        let batchResult :=
          if result.Success then
            { batchResult with SuccessfulTags := batchResult.SuccessfulTags + 1 }
          else
            { batchResult with FailedTags := batchResult.FailedTags + 1 }
        tagLoop api config rest
          { batchResult := batchResult, remote := s1, calls := st.calls ++ calls }

/-- TagRulesFromMatchResult tags all rules from a MatchResult. It returns the
outcome, the final state of the remote and the calls made; the outcome is
`none` when the program panics. -/
def TagRulesFromMatchResult {σ : Type} (api : Remote σ) (s : σ) (matchResult : MatchResult)
    (config : TaggingConfig) :
    Option (Except String BatchTaggingResult) × σ × List ApiCall :=
  match tagLoop api config matchResult.MatchedRules
    { batchResult :=
        { TotalRules := matchResult.MatchedRules.length, SuccessfulTags := 0,
          FailedTags := 0, Results := [], SkippedRules := [] },
      remote := s, calls := [] } with
  | (none, s1, calls) => (none, s1, calls)
  | (some batchResult, s1, calls) => (some (.ok batchResult), s1, calls)

/-- ProcessRuleTagging processes the complete rule tagging workflow: tag, then
save the result. A failure to save the result is only a warning. -/
def ProcessRuleTagging {σ : Type} (sys : Sys) (api : Remote σ) (s : σ)
    (matchResult : MatchResult) (config : TaggingConfig) :
    Option (Except String BatchTaggingResult) × σ × List ApiCall :=
  match TagRulesFromMatchResult api s matchResult config with
  | (none, s1, calls) => (none, s1, calls)
  | (some (.error err), s1, calls) => (some (.error ("failed to tag rules: " ++ err)), s1, calls)
  | (some (.ok batchResult), s1, calls) =>
    match SaveResultToFile sys batchResult "TaggingResult" "output"
        (FormatSimplifiedResultAny sys) with
    | .error _ => (some (.ok batchResult), s1, calls)
    | .ok _ => (some (.ok batchResult), s1, calls)

/-! ### The vocabulary of the tagging claims

The definitions below are not part of the program: they name the matched
rules the tagger fetches, each with the state in which the remote is when the
rule is processed, what the specification expects for each of them, and the
state the batch leaves the remote in. They are written from the remote's
answers, not from `TagSingleStandardRule`. -/

/-- Whether the fetch of the existing tags of a rule, processed in state
`p.2`, is answered by a rule that is not a standard rule. -/
def fetchCrashes {σ : Type} (api : Remote σ) (p : MatchedRule × σ) : Bool :=
  (GetExistingStandardRuleTags api p.2 p.1.ID).1.isNone

/-- The state of the remote after one rule that is not skipped: the state
after the fetch, or after the update when the fetch succeeded and the run is
not a dry run. -/
def stateAfterRule {σ : Type} (api : Remote σ) (config : TaggingConfig)
    (p : MatchedRule × σ) : σ :=
  match GetExistingStandardRuleTags api p.2 p.1.ID with
  | (some (.ok existingTags), s1) =>
    if config.DryRun then s1
    else (api.UpdateSecurityMonitoringRule s1 p.1.ID
      (MergeTags existingTags p.1.Tags config)).2
  | (_, s1) => s1

/-- The matched rules the tagger fetches, in order, each paired with the
state of the remote at the moment the tagger turns to it: the rules with a
non-empty desired tag list, up to and including the first one whose fetch is
answered by a rule that is not a standard rule. -/
def tagSchedule {σ : Type} (api : Remote σ) (config : TaggingConfig) :
    σ → List MatchedRule → List (MatchedRule × σ)
  | _, [] => []
  | s, matchedRule :: rest =>
    if matchedRule.Tags.length = 0 then tagSchedule api config s rest
    else if fetchCrashes api (matchedRule, s) then [(matchedRule, s)]
    else
      (matchedRule, s) ::
        tagSchedule api config (stateAfterRule api config (matchedRule, s)) rest

/-- The state of the remote after the tagger has gone through the rules. -/
def remoteAfter {σ : Type} (api : Remote σ) (config : TaggingConfig) :
    σ → List MatchedRule → σ
  | s, [] => s
  | s, matchedRule :: rest =>
    if matchedRule.Tags.length = 0 then remoteAfter api config s rest
    else if fetchCrashes api (matchedRule, s) then stateAfterRule api config (matchedRule, s)
    else remoteAfter api config (stateAfterRule api config (matchedRule, s)) rest

/-- The calls the specification expects for one rule that is not skipped,
processed in state `p.2`: one fetch, followed by one update with the merged
tags exactly when the fetch succeeded and the run is not a dry run. -/
def expectedCalls {σ : Type} (api : Remote σ) (config : TaggingConfig)
    (p : MatchedRule × σ) : List ApiCall :=
  match (GetExistingStandardRuleTags api p.2 p.1.ID).1 with
  | some (.ok existingTags) =>
    if config.DryRun then [ApiCall.get p.1.ID]
    else [ApiCall.get p.1.ID, ApiCall.update p.1.ID (MergeTags existingTags p.1.Tags config)]
  | _ => [ApiCall.get p.1.ID]

/-- The tagging result the specification expects for one rule that is not
skipped, processed in state `p.2`: failure with the error text when the fetch
fails; otherwise the fetched and the merged tags, with success in a dry run
and, in a live run, success or failure as the update succeeds or fails. There
is none when the fetch is answered by a rule that is not a standard rule. -/
def expectedResult {σ : Type} (api : Remote σ) (config : TaggingConfig)
    (p : MatchedRule × σ) : Option TaggingResult :=
  match GetExistingStandardRuleTags api p.2 p.1.ID with
  | (none, _) => none
  | (some (.error err), _) =>
    some { RuleID := p.1.ID, RuleName := p.1.Name, Success := false, OldTags := [],
           NewTags := [], Error := "Failed to get existing tags: " ++ err }
  | (some (.ok existingTags), s1) =>
    if config.DryRun then
      some { RuleID := p.1.ID, RuleName := p.1.Name, Success := true,
             OldTags := existingTags,
             NewTags := MergeTags existingTags p.1.Tags config, Error := "" }
    else
      match (api.UpdateSecurityMonitoringRule s1 p.1.ID
          (MergeTags existingTags p.1.Tags config)).1 with
      | .error err =>
        some { RuleID := p.1.ID, RuleName := p.1.Name, Success := false,
               OldTags := existingTags,
               NewTags := MergeTags existingTags p.1.Tags config,
               Error := "Failed to update rule: " ++ err }
      | .ok _ =>
        some { RuleID := p.1.ID, RuleName := p.1.Name, Success := true,
               OldTags := existingTags,
               NewTags := MergeTags existingTags p.1.Tags config, Error := "" }

/-- The tagging result the specification expects in dry-run mode for one rule
that is not skipped, processed in state `p.2`: success with the fetched tags
and the merged tags when the fetch succeeds, failure with the error text when
the fetch fails; there is none when the fetch is answered by a rule that is
not a standard rule. -/
def expectedDryRunResult {σ : Type} (api : Remote σ) (config : TaggingConfig)
    (p : MatchedRule × σ) : Option TaggingResult :=
  match (GetExistingStandardRuleTags api p.2 p.1.ID).1 with
  | some (.ok existingTags) =>
    some { RuleID := p.1.ID, RuleName := p.1.Name, Success := true, OldTags := existingTags,
           NewTags := MergeTags existingTags p.1.Tags config, Error := "" }
  | some (.error err) =>
    some { RuleID := p.1.ID, RuleName := p.1.Name, Success := false, OldTags := [],
           NewTags := [], Error := "Failed to get existing tags: " ++ err }
  | none => none

/-- Whether a call is an update call. -/
def ApiCall.isUpdate : ApiCall → Bool
  | .update _ _ => true
  | _ => false

/-! ## Configuration loader (`config.go`) -/

/-- Config holds application configuration from environment variables. -/
structure Config where
  DDSite : String
  DDAPIKey : String
  DDAppKey : String
  InputRuleFilename : String
  Pagination : PaginationConfig
  Tagging : TaggingConfig
  deriving DecidableEq, Repr

/-- The process environment: a map from names to strings, `none` for a
variable that is not set. -/
abbrev Environ := String → Option String

/-- Go `os.Getenv`: the value of the variable, empty when it is not set. -/
def Getenv (env : Environ) (key : String) : String := (env key).getD ""

/-- Go `os.Setenv`: it fails, and leaves the environment as it is, when the
key is empty or holds `=` or a NUL character, or the value holds a NUL
character; the program drops the error. -/
def Setenv (env : Environ) (key value : String) : Environ :=
  if key = "" ∨ '=' ∈ key.data ∨ Char.ofNat 0 ∈ key.data ∨ Char.ofNat 0 ∈ value.data then env
  else fun name => if name = key then some value else env name

/-- The parts of the Go standard library the loader takes as given:
`strconv.ParseInt(s, 10, 64)`, `strconv.ParseBool`, `strconv.Atoi`, and
opening a file and scanning it line by line (`os.Open`, `bufio.Scanner`): the
open error, or the lines the scanner yields and the error it ends with. -/
structure Conv where
  ParseInt : String → Except String Int
  ParseBool : String → Except String Bool
  Atoi : String → Except String Int
  OpenScan : String → Except String (List String × Option String)

/-- Go `unicode.IsSpace`. -/
def isSpace (c : Char) : Bool :=
  decide (c.toNat ∈ [0x09, 0x0A, 0x0B, 0x0C, 0x0D, 0x20, 0x85, 0xA0, 0x1680, 0x2028, 0x2029,
      0x202F, 0x205F, 0x3000] ∨
    (0x2000 ≤ c.toNat ∧ c.toNat ≤ 0x200A))

/-- Go `strings.TrimSpace`: leading and trailing white space removed. -/
def TrimSpace (s : String) : String :=
  ⟨((s.data.dropWhile isSpace).reverse.dropWhile isSpace).reverse⟩

/-- Go `strings.SplitN(s, sep, 2)` for a one-character separator: the text
before and after the first separator, `none` when there is no separator (the
result then has one part). -/
def splitFirst (sep : Char) : List Char → Option (List Char × List Char)
  | [] => none
  | c :: cs =>
    if c = sep then some ([], cs)
    else (splitFirst sep cs).map (fun p => (c :: p.1, p.2))

/-- Go `strings.Split(s, sep)` for a one-character separator. -/
def splitAll (sep : Char) : List Char → List (List Char)
  | [] => [[]]
  | c :: cs =>
    if c = sep then [] :: splitAll sep cs
    else
      match splitAll sep cs with
      | [] => [[c]]
      | p :: ps => (c :: p) :: ps

/-- The loop `for scanner.Scan()` of `LoadEnvFile`, over the scanned lines. -/
def envFileLoop : List String → Environ → Environ
  | [], env => env
  | text :: rest, env =>
    let line := TrimSpace text
    if line = "" ∨ "#".data.isPrefixOf line.data then envFileLoop rest env
    else
      match splitFirst '=' line.data with
      | none => envFileLoop rest env
      | some parts =>
        let key := TrimSpace ⟨parts.1⟩
        let value := TrimSpace ⟨parts.2⟩
        if Getenv env key = "" then envFileLoop rest (Setenv env key value)
        else envFileLoop rest env

/-- LoadEnvFile loads environment variables from a .env file: it returns its
error, if any, and the environment it leaves. -/
def LoadEnvFile (conv : Conv) (filename : String) (env : Environ) :
    Except String Unit × Environ :=
  match conv.OpenScan filename with
  | .error err => (.error err, env)
  | .ok (lines, scanErr) =>
    match scanErr with
    | some err => (.error err, envFileLoop lines env)
    | none => (.ok (), envFileLoop lines env)

/-- The loops of `LoadConfig` over the parts of a comma-separated value: every
part is trimmed and kept when it is not empty. -/
def trimmedParts (parts : List (List Char)) : List String :=
  parts.filterMap (fun part =>
    let trimmed := TrimSpace ⟨part⟩
    if trimmed ≠ "" then some trimmed else none)

/-- LoadConfig loads configuration with .env file support: it returns the
configuration or the error, and the environment it leaves. -/
def LoadConfig (conv : Conv) (env : Environ) : Except String Config × Environ :=
  let env := (LoadEnvFile conv ".env" env).2
  let pageSize : Int :=
    if Getenv env "PAGE_SIZE" ≠ "" then
      match conv.ParseInt (Getenv env "PAGE_SIZE") with
      | .ok parsed => parsed
      | .error _ => 100
    else 100
  let maxPages : Int :=
    if Getenv env "MAX_PAGES" ≠ "" then
      match conv.ParseInt (Getenv env "MAX_PAGES") with
      | .ok parsed => parsed
      | .error _ => 0
    else 0
  let tagFilters : List String :=
    if Getenv env "TAG_FILTERS" ≠ "" then
      trimmedParts (splitAll ',' (Getenv env "TAG_FILTERS").data)
    else []
  let dryRun : Bool :=
    if Getenv env "DRYRUN" ≠ "" then
      match conv.ParseBool (Getenv env "DRYRUN") with
      | .ok parsed => parsed
      | .error _ => false
    else false
  let overwriteTags : Bool :=
    if Getenv env "OVERWRITE_TAGS" ≠ "" then
      match conv.ParseBool (Getenv env "OVERWRITE_TAGS") with
      | .ok parsed => parsed
      | .error _ => false
    else false
  let includedTags : List String :=
    if Getenv env "INCLUDED_TAGS" ≠ "" then
      trimmedParts (splitAll ',' (Getenv env "INCLUDED_TAGS").data)
    else []
  let maxConcurrency : Int :=
    if Getenv env "MAX_CONCURRENCY" ≠ "" then
      match conv.Atoi (Getenv env "MAX_CONCURRENCY") with
      | .ok parsed => if parsed > 0 then parsed else 5
      | .error _ => 5
    else 5
  let inputRuleFilename : String :=
    if Getenv env "INPUT" ≠ "" then Getenv env "INPUT" else "input.json"
  let config : Config :=
    { DDSite := Getenv env "DD_SITE",
      DDAPIKey := Getenv env "DD_API_KEY",
      DDAppKey := Getenv env "DD_APP_KEY",
      InputRuleFilename := inputRuleFilename,
      Pagination := { PageSize := pageSize, MaxPages := maxPages, TagFilters := tagFilters },
      Tagging := { DryRun := dryRun, OverwriteTags := overwriteTags,
                   IncludedTags := includedTags, MaxConcurrency := maxConcurrency } }
  if config.DDAPIKey = "" then (.error "DD_API_KEY environment variable is required", env)
  else if config.DDAppKey = "" then
    (.error "DD_APP_KEY environment variable is required", env)
  else if config.DDSite = "" then (.ok { config with DDSite := "datadoghq.com" }, env)
  else (.ok config, env)

/-! ### The vocabulary of the configuration claims -/

/-- The entries of a .env file as the specification reads it: the scanned
lines that are neither blank nor comments and hold an `=`, each as the trimmed
key before the first `=` and the trimmed value after it, in order. -/
def dotenvEntries : List String → List (String × String)
  | [] => []
  | text :: rest =>
    if TrimSpace text = "" ∨ "#".data.isPrefixOf (TrimSpace text).data then dotenvEntries rest
    else
      match splitFirst '=' (TrimSpace text).data with
      | none => dotenvEntries rest
      | some parts => (TrimSpace ⟨parts.1⟩, TrimSpace ⟨parts.2⟩) :: dotenvEntries rest

/-- Whether `os.Setenv` accepts the key and the value. -/
def settable (key value : String) : Bool :=
  !decide (key = "" ∨ '=' ∈ key.data ∨ Char.ofNat 0 ∈ key.data ∨ Char.ofNat 0 ∈ value.data)

/-- The value the .env entries give to a variable that has none: the value of
the first entry for that name that is not empty and that `os.Setenv` accepts,
the empty string when there is no such entry. -/
def dotenvValue (entries : List (String × String)) (name : String) : String :=
  ((entries.find? (fun e => decide (e.1 = name ∧ e.2 ≠ "") && settable e.1 e.2)).map
    Prod.snd).getD ""

/-- A fake standard library for the loader: only the decimal numbers `50` and
`3` parse, only `true` and `false` parse as booleans, and the file `.env` is
scanned into the lines `dotenv` when they are given and cannot be opened
otherwise. -/
def fakeConv (dotenv : Option (List String)) : Conv :=
  { ParseInt := fun s => if s = "50" then .ok 50 else if s = "3" then .ok 3 else .error "syntax",
    ParseBool := fun s =>
      if s = "true" then .ok true else if s = "false" then .ok false else .error "syntax",
    Atoi := fun s => if s = "50" then .ok 50 else if s = "3" then .ok 3 else .error "syntax",
    OpenScan := fun _ =>
      match dotenv with
      | some lines => .ok (lines, none)
      | none => .error "no such file" }

theorem includedLoop_iff (tag : String) (l : List String) :
    includedLoop tag l = true ↔ tag ∈ l := by
  induction l with
  | nil => simp [includedLoop]
  | cons a l ih => by_cases h : tag = a <;> simp [includedLoop, h, ih]

theorem mem_keepFirst (t : String) (l : List String) : t ∈ keepFirst l ↔ t ∈ l := by
  induction l with
  | nil => simp [keepFirst]
  | cons a l ih =>
    by_cases h : t = a <;> simp [keepFirst, List.mem_filter, ih, h]

theorem keepFirst_filter (p : String → Bool) (l : List String) :
    keepFirst (l.filter p) = (keepFirst l).filter p := by
  induction l with
  | nil => simp [keepFirst]
  | cons a l ih =>
    by_cases h : p a = true
    · simp only [List.filter_cons, h, if_true, keepFirst, ih, List.filter_filter]
      congr 1
      apply List.filter_congr
      intro x _
      exact Bool.and_comm _ _
    · simp only [List.filter_cons, h, keepFirst, ih, List.filter_filter]
      simp only [Bool.false_eq_true, if_false]
      rw [ih]
      apply List.filter_congr
      intro x _
      by_cases hx : x = a
      · subst hx; simp [h]
      · simp [hx]

theorem mergeLoop_spec (q : String → Bool) (l : List String) (tm : String → Bool)
    (acc : List String) (hinv : ∀ t, tm t = true ↔ t ∈ acc) :
    (l.foldl (fun (st : (String → Bool) × List String) tag =>
        if q tag && !(st.1 tag) then (Function.update st.1 tag true, st.2 ++ [tag]) else st)
      (tm, acc)).2
      = acc ++ keepFirst (l.filter (fun t => q t && decide (t ∉ acc)))
    ∧ ∀ t, (l.foldl (fun (st : (String → Bool) × List String) tag =>
        if q tag && !(st.1 tag) then (Function.update st.1 tag true, st.2 ++ [tag]) else st)
      (tm, acc)).1 t = true ↔
        t ∈ (l.foldl (fun (st : (String → Bool) × List String) tag =>
        if q tag && !(st.1 tag) then (Function.update st.1 tag true, st.2 ++ [tag]) else st)
      (tm, acc)).2 := by
  induction l generalizing tm acc with
  | nil => simpa [keepFirst] using hinv
  | cons a l ih =>
    rw [List.foldl_cons]
    by_cases hq : (q a && !(tm a)) = true
    · rw [if_pos hq]
      have hqa : q a = true := by simp at hq; exact hq.1
      have hna : a ∉ acc := by
        intro hmem
        have := (hinv a).2 hmem
        simp [this] at hq
      have hinv2 : ∀ t, Function.update tm a true t = true ↔ t ∈ acc ++ [a] := by
        intro t
        by_cases ht : t = a
        · subst ht; simp
        · simp [Function.update, ht, hinv t]
      obtain ⟨h1, h2⟩ := ih (Function.update tm a true) (acc ++ [a]) hinv2
      refine ⟨?_, h2⟩
      rw [h1]
      simp only [List.filter_cons, hqa, hna, not_false_eq_true, decide_True, Bool.and_self,
        if_true, keepFirst, List.append_assoc, List.singleton_append]
      congr 2
      rw [← keepFirst_filter, List.filter_filter]
      congr 1
      apply List.filter_congr
      intro x _
      by_cases hx : x = a
      · subst hx; simp
      · simp [hx]
    · rw [if_neg hq]
      obtain ⟨h1, h2⟩ := ih tm acc hinv
      refine ⟨?_, h2⟩
      rw [h1]
      have : (q a && decide (a ∉ acc)) = false := by
        by_cases hqa : q a = true
        · have : tm a = true := by simpa [hqa] using hq
          have := (hinv a).1 this
          simp [this]
        · simp [hqa]
      simp only [List.filter_cons, this]
      simp

theorem filterLoop_spec (p : String → Bool) (l acc : List String) :
    l.foldl (fun filteredTags tag => if p tag then filteredTags ++ [tag] else filteredTags) acc
      = acc ++ l.filter p := by
  induction l generalizing acc with
  | nil => simp
  | cons a l ih =>
    rw [List.foldl_cons, ih]
    by_cases h : p a = true <;> simp [h]

theorem MergeTags_append (existing desired : List String) (config : TaggingConfig)
    (h : config.OverwriteTags = false) :
    MergeTags existing desired config = appendSpec existing desired config.IncludedTags := by
  have hf : (fun (st : (String → Bool) × List String) (tag : String) =>
      if !(st.1 tag) then (Function.update st.1 tag true, st.2 ++ [tag]) else st)
      = (fun st tag => if (fun _ => true) tag && !(st.1 tag) then
          (Function.update st.1 tag true, st.2 ++ [tag]) else st) := by
    funext st tag; simp
  have hg : (fun (st : (String → Bool) × List String) (tag : String) =>
      if !(includedLoop tag config.IncludedTags) && !(st.1 tag) then
        (Function.update st.1 tag true, st.2 ++ [tag]) else st)
      = (fun st tag => if (fun t => !(includedLoop t config.IncludedTags)) tag && !(st.1 tag) then
          (Function.update st.1 tag true, st.2 ++ [tag]) else st) := rfl
  obtain ⟨h1, h2⟩ := mergeLoop_spec (fun _ : String => true) existing (fun _ : String => false) [] (by simp)
  unfold MergeTags appendSpec
  simp only [h, Bool.false_eq_true, if_false]
  rw [hf, hg]
  generalize List.foldl _ ((fun _ : String => false), ([] : List String)) existing = st1 at h1 h2 ⊢
  obtain ⟨tm, acc⟩ := st1
  obtain ⟨h3, -⟩ := mergeLoop_spec (fun t => !(includedLoop t config.IncludedTags)) desired tm acc h2
  rw [h3]
  simp only at h1
  rw [h1]
  simp only [List.nil_append, List.not_mem_nil, not_false_eq_true, decide_True, Bool.true_and,
    List.filter_true]
  congr 2
  apply List.filter_congr
  intro t _
  by_cases hi : t ∈ config.IncludedTags
  · simp [(includedLoop_iff t _).2 hi, hi]
  · have : includedLoop t config.IncludedTags = false := by
      cases hc : includedLoop t config.IncludedTags with
      | false => rfl
      | true => exact absurd ((includedLoop_iff t _).1 hc) hi
    simp [this, hi, mem_keepFirst]

theorem MergeTags_overwrite (existing desired : List String) (config : TaggingConfig)
    (h : config.OverwriteTags = true) :
    MergeTags existing desired config = overwriteSpec desired config.IncludedTags := by
  unfold MergeTags overwriteSpec
  simp only [h, if_true]
  rw [filterLoop_spec (fun tag => !(includedLoop tag config.IncludedTags))]
  simp only [List.nil_append]
  apply List.filter_congr
  intro t _
  by_cases hi : t ∈ config.IncludedTags
  · simp [(includedLoop_iff t _).2 hi, hi]
  · have : includedLoop t config.IncludedTags = false := by
      cases hc : includedLoop t config.IncludedTags with
      | false => rfl
      | true => exact absurd ((includedLoop_iff t _).1 hc) hi
    simp [this, hi]

theorem keepFirst_of_nodup (l : List String) (h : l.Nodup) : keepFirst l = l := by
  induction l with
  | nil => rfl
  | cons a l ih =>
    rw [List.nodup_cons] at h
    rw [keepFirst, ih h.2]
    congr 1
    apply List.filter_eq_self.2
    intro x hx
    have : x ≠ a := fun hxa => h.1 (hxa ▸ hx)
    simpa using this

/-! ## Claims on `MergeTags` -/

/-- C1: under the append policy (`OverwriteTags = false`) `MergeTags` returns
the existing tags deduplicated (first occurrence kept, in order) followed by
the desired tags that are neither excluded (`IncludedTags`) nor existing,
each once, in first-seen order; when the desired list has no repeated tag
these are just the desired tags that are neither excluded nor existing, in
their original order. -/
theorem C1_append_policy (existing desired : List String) (config : TaggingConfig)
    (h : config.OverwriteTags = false) :
    MergeTags existing desired config = appendSpec existing desired config.IncludedTags ∧
      (desired.Nodup →
        MergeTags existing desired config = keepFirst existing ++
          desired.filter (fun t => decide (t ∉ config.IncludedTags ∧ t ∉ existing))) := by
  refine ⟨MergeTags_append existing desired config h, fun hnd => ?_⟩
  rw [MergeTags_append existing desired config h, appendSpec,
    keepFirst_of_nodup _ (hnd.filter _)]

theorem C1_append_policy_witness :
    (⟨false, false, [], 5⟩ : TaggingConfig).OverwriteTags = false ∧
    MergeTags ["b", "c"] ["a", "b"] ⟨false, false, [], 5⟩ = appendSpec ["b", "c"] ["a", "b"] [] ∧
    appendSpec ["b", "c"] ["a", "b"] [] = ["b", "c", "a"] :=
  ⟨rfl, (C1_append_policy ["b", "c"] ["a", "b"] ⟨false, false, [], 5⟩ rfl).1, by decide⟩

/-- C2: under the overwrite policy (`OverwriteTags = true`) `MergeTags` returns
exactly the desired tags that are not in the excluded list (`IncludedTags`),
in their original order, whatever the existing list is. -/
theorem C2_overwrite_policy (existing desired : List String) (config : TaggingConfig)
    (h : config.OverwriteTags = true) :
    MergeTags existing desired config
        = desired.filter (fun t => decide (t ∉ config.IncludedTags)) ∧
      ∀ existing2 : List String,
        MergeTags existing2 desired config = MergeTags existing desired config := by
  refine ⟨MergeTags_overwrite existing desired config h, fun existing2 => ?_⟩
  rw [MergeTags_overwrite existing2 desired config h, MergeTags_overwrite existing desired config h]

theorem C2_overwrite_policy_witness :
    (⟨false, true, [], 5⟩ : TaggingConfig).OverwriteTags = true ∧
    MergeTags ["b", "c"] ["a", "b"] ⟨false, true, [], 5⟩ = ["a", "b"] :=
  ⟨rfl, (C2_overwrite_policy ["b", "c"] ["a", "b"] ⟨false, true, [], 5⟩ rfl).1.trans (by decide)⟩

/-- C3 as stated fails: under the append policy an existing tag that is a
member of `IncludedTags` is still in the tag set `MergeTags` returns. -/
theorem C3_included_tag_written :
    "sys" ∈ (⟨false, false, ["sys"], 5⟩ : TaggingConfig).IncludedTags ∧
    MergeTags ["sys"] ["a"] ⟨false, false, ["sys"], 5⟩ = ["sys", "a"] := by
  decide

/-- C3, amended: a member of `IncludedTags` is never added by `MergeTags`; it
is in the returned tag set exactly when the policy is append and the tag is
already in the existing list. -/
theorem C3_included_tag_never_added (existing desired : List String) (config : TaggingConfig)
    (t : String) (ht : t ∈ config.IncludedTags) :
    t ∈ MergeTags existing desired config ↔ (config.OverwriteTags = false ∧ t ∈ existing) := by
  cases h : config.OverwriteTags with
  | true =>
    rw [MergeTags_overwrite existing desired config h]
    simp [overwriteSpec, List.mem_filter, ht]
  | false =>
    rw [MergeTags_append existing desired config h]
    simp [appendSpec, List.mem_append, mem_keepFirst, List.mem_filter, ht]

theorem C3_included_tag_never_added_witness :
    "sys" ∈ (⟨false, false, ["sys"], 5⟩ : TaggingConfig).IncludedTags ∧
    ("sys" ∈ MergeTags ["sys"] ["sys", "a"] ⟨false, false, ["sys"], 5⟩ ↔
      ((⟨false, false, ["sys"], 5⟩ : TaggingConfig).OverwriteTags = false ∧ "sys" ∈ ["sys"])) :=
  ⟨by decide,
    C3_included_tag_never_added ["sys"] ["sys", "a"] ⟨false, false, ["sys"], 5⟩ "sys" (by decide)⟩

/-! ## Lemmas on Go maps and the lookup key -/

theorem GoMap.get?_set {V : Type} (m : GoMap V) (k : String) (v : V) (key : String) :
    (m.set k v).get? key = if k = key then some v else m.get? key := by
  induction m with
  | nil => simp [GoMap.set, GoMap.get?]
  | cons e m ih =>
    obtain ⟨k1, v1⟩ := e
    by_cases h1 : k1 = k
    · subst h1
      by_cases h2 : k1 = key <;> simp [GoMap.set, GoMap.get?, h2]
    · by_cases h2 : k1 = key
      · subst h2
        have : ¬ k = k1 := fun h => h1 h.symm
        simp [GoMap.set, GoMap.get?, h1, this]
      · simp [GoMap.set, GoMap.get?, h1, h2, ih]

theorem GoMap.keys_set {V : Type} (m : GoMap V) (k : String) (v : V) :
    (m.set k v).map Prod.fst = if k ∈ m.map Prod.fst then m.map Prod.fst
      else m.map Prod.fst ++ [k] := by
  induction m with
  | nil => simp [GoMap.set]
  | cons e m ih =>
    obtain ⟨k1, v1⟩ := e
    by_cases h1 : k1 = k
    · subst h1; simp [GoMap.set]
    · have h1b : ¬ k = k1 := fun h => h1 h.symm
      by_cases h2 : k ∈ m.map Prod.fst
      · simp only [GoMap.set, h1, if_false, List.map_cons, ih, h2, if_true, List.mem_cons,
          or_true]
      · simp only [GoMap.set, h1, if_false, List.map_cons, ih, h2, List.mem_cons, h1b,
          or_self, List.cons_append]

theorem GoMap.nodup_set {V : Type} (m : GoMap V) (k : String) (v : V)
    (h : (m.map Prod.fst).Nodup) : ((m.set k v).map Prod.fst).Nodup := by
  rw [GoMap.keys_set]
  by_cases hk : k ∈ m.map Prod.fst
  · simpa [hk] using h
  · rw [if_neg hk]
    exact List.Nodup.append h (List.nodup_singleton k) (by simpa using hk)

theorem GoMap.mem_iff_get? {V : Type} (m : GoMap V) (h : (m.map Prod.fst).Nodup)
    (k : String) (v : V) : (k, v) ∈ m ↔ m.get? k = some v := by
  induction m with
  | nil => simp [GoMap.get?]
  | cons e m ih =>
    obtain ⟨k1, v1⟩ := e
    rw [List.map_cons, List.nodup_cons] at h
    by_cases h1 : k1 = k
    · subst h1
      have : ∀ w, (k1, w) ∉ m := fun w hw => h.1 (List.mem_map.2 ⟨(k1, w), hw, rfl⟩)
      simp only [List.mem_cons, Prod.mk.injEq, true_and, GoMap.get?, if_true, Option.some.injEq,
        this, or_false]
      exact eq_comm
    · have h1b : ¬ k = k1 := fun hh => h1 hh.symm
      simp [GoMap.get?, h1, h1b, ih h.2]

/-- Indexing a list into a map: the value under a key is the last element of
the list with that key, or what the map held before. -/
theorem GoMap.get?_index {α : Type} (key : α → String) (l : List α) (m : GoMap α) (k : String) :
    (l.foldl (fun m r => m.set (key r) r) m).get? k
      = (l.reverse.find? (fun r => decide (key r = k))).or (m.get? k) := by
  induction l generalizing m with
  | nil => simp
  | cons a l ih =>
    rw [List.foldl_cons, ih, GoMap.get?_set, List.reverse_cons, List.find?_append]
    cases hf : List.find? (fun r => decide (key r = k)) l.reverse with
    | some r => simp
    | none =>
      by_cases h : key a = k <;> simp [h]

theorem GoMap.nodup_index {α : Type} (key : α → String) (l : List α) (m : GoMap α)
    (h : (m.map Prod.fst).Nodup) :
    ((l.foldl (fun m r => m.set (key r) r) m).map Prod.fst).Nodup := by
  induction l generalizing m with
  | nil => simpa using h
  | cons a l ih =>
    rw [List.foldl_cons]
    exact ih _ (GoMap.nodup_set m _ _ h)

theorem ruleKey_data (name : String) (isDefault : Bool) :
    (ruleKey name isDefault).data
      = name.data ++ '_' :: (if isDefault then "true".data else "false".data) := by
  cases isDefault <;> simp [ruleKey, String.data_append]

/-- The lookup key determines the pair (name, isDefault). -/
theorem ruleKey_injective (n1 n2 : String) (d1 d2 : Bool)
    (h : ruleKey n1 d1 = ruleKey n2 d2) : n1 = n2 ∧ d1 = d2 := by
  have hd := congrArg String.data h
  rw [ruleKey_data, ruleKey_data] at hd
  have hr := congrArg List.reverse hd
  cases d1 <;> cases d2 <;>
    simp [List.reverse_append, List.reverse_cons] at hr
  · exact ⟨String.ext hr, rfl⟩
  · exact ⟨String.ext hr, rfl⟩

/-! ## Lemmas on `MatchRules` -/

theorem GoMap.index_get?_some {α : Type} (key : α → String) (l : List α) (k : String) (v : α)
    (h : GoMap.get? (l.foldl (fun (m : GoMap α) r => GoMap.set m (key r) r) []) k = some v) :
    v ∈ l ∧ key v = k := by
  rw [GoMap.get?_index] at h
  simp only [GoMap.get?, Option.or_none] at h
  refine ⟨List.mem_reverse.1 (List.mem_of_find?_eq_some h), ?_⟩
  simpa using List.find?_some h

theorem GoMap.index_get?_of_mem {α : Type} (key : α → String) (l : List α) (r : α)
    (h : r ∈ l) :
    ∃ v, GoMap.get? (l.foldl (fun (m : GoMap α) r => GoMap.set m (key r) r) []) (key r) = some v := by
  rw [GoMap.get?_index]
  simp only [GoMap.get?, Option.or_none]
  cases hf : List.find? (fun x => decide (key x = key r)) l.reverse with
  | some v => exact ⟨v, rfl⟩
  | none =>
    rw [List.find?_eq_none] at hf
    exact absurd (by simp) (hf r (List.mem_reverse.2 h))

/-- The matched rule the match loop emits for one entry of the manifest-side
index, if its key is in the listed-side index. -/
theorem matchLoop_rules (resultRuleMap : GoMap SimplifiedRule)
    (entries : List (String × InputRule)) (st : MatchLoop) :
    (matchLoop resultRuleMap entries st).MatchedRules
      = st.MatchedRules ++ entries.filterMap (fun e =>
          (resultRuleMap.get? e.1).map (fun resultRule =>
            ({ ID := resultRule.ID, Name := e.2.Name, Tags := e.2.Tags,
               IsDefault := e.2.IsDefault } : MatchedRule))) := by
  induction entries generalizing st with
  | nil => simp [matchLoop]
  | cons e entries ih =>
    obtain ⟨key, inputRule⟩ := e
    cases h : resultRuleMap.get? key with
    | none => simp [matchLoop, h, ih]
    | some resultRule => simp [matchLoop, h, ih]

/-- The outcome of `MatchRules`, with the matched rules as the image of the
visited entries of the manifest-side index. -/
theorem MatchRules_eq (rangeOrder : GoMap InputRule → List (String × InputRule))
    (inputData : InputData) (resultData : PaginatedResult) :
    MatchRules rangeOrder inputData resultData = .ok
      { TotalMatches := ((rangeOrder (indexInput inputData.Rules [])).filterMap (fun e =>
          ((indexResult resultData.Rules []).get? e.1).map (fun resultRule =>
            ({ ID := resultRule.ID, Name := e.2.Name, Tags := e.2.Tags,
               IsDefault := e.2.IsDefault } : MatchedRule)))).length,
        TotalInputRules := inputData.Rules.length,
        TotalResultRules := resultData.Rules.length,
        MatchedRules := (rangeOrder (indexInput inputData.Rules [])).filterMap (fun e =>
          ((indexResult resultData.Rules []).get? e.1).map (fun resultRule =>
            ({ ID := resultRule.ID, Name := e.2.Name, Tags := e.2.Tags,
               IsDefault := e.2.IsDefault } : MatchedRule))) } := by
  simp [MatchRules, matchLoop_rules]

theorem indexInput_get?_some (rules : List InputRule) (k : String) (v : InputRule)
    (h : (indexInput rules []).get? k = some v) :
    v ∈ rules ∧ ruleKey v.Name v.IsDefault = k :=
  GoMap.index_get?_some (fun r : InputRule => ruleKey r.Name r.IsDefault) rules k v h

theorem indexResult_get?_some (rules : List SimplifiedRule) (k : String) (v : SimplifiedRule)
    (h : (indexResult rules []).get? k = some v) :
    v ∈ rules ∧ ruleKey v.Name v.IsDefault = k :=
  GoMap.index_get?_some (fun r : SimplifiedRule => ruleKey r.Name r.IsDefault) rules k v h

theorem indexInput_nodup (rules : List InputRule) :
    ((indexInput rules []).map Prod.fst).Nodup :=
  GoMap.nodup_index (fun r : InputRule => ruleKey r.Name r.IsDefault) rules [] (by simp)

/-- Every visited entry of the manifest-side index is a manifest rule under
its own key. -/
theorem mem_rangeOrder (rangeOrder : GoMap InputRule → List (String × InputRule))
    (hperm : ∀ m, (rangeOrder m).Perm m) (rules : List InputRule) (e : String × InputRule)
    (he : e ∈ rangeOrder (indexInput rules [])) :
    e.2 ∈ rules ∧ ruleKey e.2.Name e.2.IsDefault = e.1 := by
  have hm : (e.1, e.2) ∈ indexInput rules [] := (hperm _).mem_iff.1 he
  exact indexInput_get?_some rules e.1 e.2
    ((GoMap.mem_iff_get? _ (indexInput_nodup rules) e.1 e.2).1 hm)

/-! ## Claims on `MatchRules` -/

/-- C4: `MatchRules` emits a matched rule with name `n` and flag `d` if and
only if some manifest rule and some listed rule both have name `n` and flag
`d`; the emitted rules have pairwise different (name, isDefault), so there is
exactly one per such pair; each carries a listed rule's id and a manifest
rule's name, tags and flag, both rules having that name and flag;
`TotalMatches` is the number of emitted rules; and the string key determines
the pair (name, isDefault). The order in which the runtime ranges over the
index is arbitrary, each entry being visited once. -/
theorem C4_match_on_both_fields (rangeOrder : GoMap InputRule → List (String × InputRule))
    (hperm : ∀ m, (rangeOrder m).Perm m) (inputData : InputData)
    (resultData : PaginatedResult) :
    ∃ out : MatchResult, MatchRules rangeOrder inputData resultData = .ok out ∧
      (∀ (n : String) (d : Bool),
        (∃ mr ∈ out.MatchedRules, mr.Name = n ∧ mr.IsDefault = d) ↔
          ((∃ ir ∈ inputData.Rules, ir.Name = n ∧ ir.IsDefault = d) ∧
            (∃ rr ∈ resultData.Rules, rr.Name = n ∧ rr.IsDefault = d))) ∧
      (out.MatchedRules.map (fun mr => (mr.Name, mr.IsDefault))).Nodup ∧
      (∀ mr ∈ out.MatchedRules, ∃ ir ∈ inputData.Rules, ∃ rr ∈ resultData.Rules,
        rr.Name = ir.Name ∧ rr.IsDefault = ir.IsDefault ∧
        mr = { ID := rr.ID, Name := ir.Name, Tags := ir.Tags, IsDefault := ir.IsDefault }) ∧
      out.TotalMatches = out.MatchedRules.length ∧
      (∀ (n1 n2 : String) (d1 d2 : Bool), ruleKey n1 d1 = ruleKey n2 d2 → n1 = n2 ∧ d1 = d2) := by
  refine ⟨_, MatchRules_eq rangeOrder inputData resultData, ?_, ?_, ?_, rfl, ruleKey_injective⟩
  · intro n d
    simp only [List.mem_filterMap, Option.map_eq_some']
    constructor
    · rintro ⟨mr, ⟨e, he, rr, hrr, rfl⟩, hn, hd⟩
      obtain ⟨hmem, hkey⟩ := mem_rangeOrder rangeOrder hperm inputData.Rules e he
      obtain ⟨hrmem, hrkey⟩ := indexResult_get?_some resultData.Rules e.1 rr hrr
      obtain ⟨h1, h2⟩ := ruleKey_injective _ _ _ _ (hrkey.trans hkey.symm)
      exact ⟨⟨e.2, hmem, hn, hd⟩, ⟨rr, hrmem, h1.trans hn, h2.trans hd⟩⟩
    · rintro ⟨⟨ir, hir, rfl, rfl⟩, ⟨rr, hrr, hn, hd⟩⟩
      obtain ⟨v, hv⟩ := GoMap.index_get?_of_mem
        (fun r : InputRule => ruleKey r.Name r.IsDefault) inputData.Rules ir hir
      obtain ⟨w, hw⟩ := GoMap.index_get?_of_mem
        (fun r : SimplifiedRule => ruleKey r.Name r.IsDefault) resultData.Rules rr hrr
      have hvk := (indexInput_get?_some inputData.Rules _ v hv).2
      obtain ⟨h1, h2⟩ := ruleKey_injective _ _ _ _ hvk
      have hmem : (ruleKey ir.Name ir.IsDefault, v) ∈ rangeOrder (indexInput inputData.Rules []) :=
        (hperm _).mem_iff.2 ((GoMap.mem_iff_get? _ (indexInput_nodup inputData.Rules) _ v).2 hv)
      refine ⟨_, ⟨_, hmem, w, ?_, rfl⟩, h1, h2⟩
      rw [← hn, ← hd]
      exact hw
  · rw [List.map_filterMap]
    have hnd : ((rangeOrder (indexInput inputData.Rules [])).map Prod.fst).Nodup :=
      ((hperm _).map Prod.fst).nodup_iff.2 (indexInput_nodup inputData.Rules)
    have hpw := List.Pairwise.and_mem.1 (List.pairwise_map.1 hnd)
    refine List.Pairwise.filterMap _ ?_ hpw
    rintro e1 e2 ⟨h1, h2, hne⟩ b1 hb1 b2 hb2 heq
    simp only [Option.mem_def, Option.map_eq_some'] at hb1 hb2
    obtain ⟨mr1, ⟨rr1, -, rfl⟩, rfl⟩ := hb1
    obtain ⟨mr2, ⟨rr2, -, rfl⟩, rfl⟩ := hb2
    simp only [Prod.mk.injEq] at heq
    have k1 := (mem_rangeOrder rangeOrder hperm inputData.Rules e1 h1).2
    have k2 := (mem_rangeOrder rangeOrder hperm inputData.Rules e2 h2).2
    apply hne
    rw [← k1, ← k2, heq.1, heq.2]
  · intro mr hmr
    simp only [List.mem_filterMap, Option.map_eq_some'] at hmr
    obtain ⟨e, he, rr, hrr, rfl⟩ := hmr
    obtain ⟨hmem, hkey⟩ := mem_rangeOrder rangeOrder hperm inputData.Rules e he
    obtain ⟨hrmem, hrkey⟩ := indexResult_get?_some resultData.Rules e.1 rr hrr
    obtain ⟨h1, h2⟩ := ruleKey_injective _ _ _ _ (hrkey.trans hkey.symm)
    exact ⟨e.2, hmem, rr, hrmem, h1, h2, rfl⟩

theorem C4_match_on_both_fields_witness :
    (∀ m : GoMap InputRule, ((fun m => m) m : List (String × InputRule)).Perm m) ∧
    (∃ out : MatchResult,
      MatchRules (fun m => m) ⟨1, 1, [], [⟨"", false, "R1", ["a", "b"]⟩]⟩
        ⟨1, 0, [⟨"x1", false, "R1"⟩]⟩ = .ok out ∧
      out.TotalMatches = out.MatchedRules.length) ∧
    MatchRules (fun m => m) ⟨1, 1, [], [⟨"", false, "R1", ["a", "b"]⟩]⟩
        ⟨1, 0, [⟨"x1", false, "R1"⟩]⟩ = .ok ⟨1, 1, 1, [⟨"x1", "R1", ["a", "b"], false⟩]⟩ := by
  refine ⟨fun m => List.Perm.refl m, ?_, by rfl⟩
  obtain ⟨out, h, -, -, -, ht, -⟩ := C4_match_on_both_fields (fun m => m)
    (fun m => List.Perm.refl m) ⟨1, 1, [], [⟨"", false, "R1", ["a", "b"]⟩]⟩
    ⟨1, 0, [⟨"x1", false, "R1"⟩]⟩
  exact ⟨out, h, ht⟩

/-! ## Lemmas on the lister -/

theorem matchesTagFilters_eq (sys : Sys) (tagFilters : List String) (ruleData : Json) :
    matchesTagFilters sys (ruleTagsOf ruleData) tagFilters
      = passesFilters sys tagFilters ruleData := by
  unfold matchesTagFilters passesFilters
  by_cases h : tagFilters = []
  · subst h; simp
  · have hl : ¬ tagFilters.length = 0 := by simpa using h
    simp only [hl, h, if_false, false_or]
    rw [Bool.eq_iff_iff]
    simp [List.any_eq_true]

theorem tagStrings_eq (f : Json → Option String) (h1 : ∀ tagStr, f (.string tagStr) = some tagStr)
    (h2 : ∀ tag, (∀ tagStr, tag ≠ .string tagStr) → f tag = none) (tagArray : List Json) :
    tagStrings tagArray = tagArray.filterMap f := by
  induction tagArray with
  | nil => rfl
  | cons a l ih =>
    cases a with
    | string t => simp [tagStrings, ih, h1]
    | null => simp [tagStrings, ih, h2 Json.null (by simp)]
    | bool b => simp [tagStrings, ih, h2 (Json.bool b) (by simp)]
    | number t => simp [tagStrings, ih, h2 (Json.number t) (by simp)]
    | array e => simp [tagStrings, ih, h2 (Json.array e) (by simp)]
    | object e => simp [tagStrings, ih, h2 (Json.object e) (by simp)]

/-- The extraction of the tags succeeds exactly on the elements that decode
as a rule object, and then gives the tags of the rule. -/
theorem extractTagsFromRule_eq (ruleData : Json) :
    (decodesAsRule ruleData = true →
      extractTagsFromRule ruleData = .ok (ruleTagsOf ruleData)) ∧
    (decodesAsRule ruleData = false → ∃ err, extractTagsFromRule ruleData = .error err) := by
  cases ruleData with
  | object fields =>
    refine ⟨fun _ => ?_, fun h => absurd h (by simp [decodesAsRule])⟩
    simp only [extractTagsFromRule, unmarshalMap, ruleTagsOf, fieldsOf]
    split
    · congr 1
      apply tagStrings_eq
      · intro tagStr; rfl
      · intro tag htag
        cases tag with
        | string t => exact absurd rfl (htag t)
        | null => rfl
        | bool b => rfl
        | number t => rfl
        | array e => rfl
        | object e => rfl
    · rfl
  | null =>
    exact ⟨fun _ => rfl, fun h => absurd h (by simp [decodesAsRule])⟩
  | bool b => exact ⟨fun h => absurd h (by simp [decodesAsRule]), fun _ => ⟨_, rfl⟩⟩
  | number t => exact ⟨fun h => absurd h (by simp [decodesAsRule]), fun _ => ⟨_, rfl⟩⟩
  | string t => exact ⟨fun h => absurd h (by simp [decodesAsRule]), fun _ => ⟨_, rfl⟩⟩
  | array l => exact ⟨fun h => absurd h (by simp [decodesAsRule]), fun _ => ⟨_, rfl⟩⟩

theorem extractSimplifiedRule_eq (ruleData : Json) (h : decodesAsRule ruleData = true) :
    extractSimplifiedRule ruleData = .ok (projectionOf ruleData) := by
  cases ruleData with
  | object fields => rfl
  | null => rfl
  | bool b => exact absurd h (by simp [decodesAsRule])
  | number t => exact absurd h (by simp [decodesAsRule])
  | string t => exact absurd h (by simp [decodesAsRule])
  | array l => exact absurd h (by simp [decodesAsRule])

theorem pageLoop_pageRules (sys : Sys) (config : PaginationConfig) (data : List Json)
    (st : PageLoop) :
    (pageLoop sys config data st).pageRules
      = st.pageRules ++
          (data.filter (fun ruleData =>
            decodesAsRule ruleData && passesFilters sys config.TagFilters ruleData)).map
            projectionOf := by
  induction data generalizing st with
  | nil => simp [pageLoop]
  | cons a data ih =>
    unfold pageLoop
    cases hd : decodesAsRule a with
    | false =>
      obtain ⟨err, herr⟩ := (extractTagsFromRule_eq a).2 hd
      simp [herr, ih, hd]
    | true =>
      simp only [(extractTagsFromRule_eq a).1 hd, matchesTagFilters_eq,
        extractSimplifiedRule_eq a hd]
      cases h : passesFilters sys config.TagFilters a with
      | false => simp [ih, h, hd]
      | true => simp [ih, h, hd]

theorem decodeResponse_encodePage (page : ListResponse) :
    decodeResponse (encodePage page) = .ok page := by
  obtain ⟨data⟩ := page
  cases data <;> rfl

theorem listLoop_run {σ : Type} (sys : Sys) (api : Remote σ) (config : PaginationConfig) (s : σ)
    (pages : Nat → ListResponse) (k : Nat)
    (hok : ∀ i ≤ k, listRespAt api config.PageSize s i = .ok (pages i))
    (hstop : stopsAt config pages k = true)
    (hmin : ∀ i < k, stopsAt config pages i = false) :
    ∀ (d j : Nat) (st : ListLoop σ) (fuel : Nat), j + d = k → st.pageNumber = j →
      st.remote = listStateAt api config.PageSize s j → d < fuel →
      ∃ st2, listLoop sys api config fuel st = some (none, st2) ∧
        st2.calls = st.calls ++ (List.range' j (d + 1)).map (ApiCall.list config.PageSize) ∧
        st2.result.Rules = st.result.Rules ++
          ((List.range' j (d + 1)).flatMap (fun i =>
            ((pages i).rows.filter (fun ruleData =>
              decodesAsRule ruleData && passesFilters sys config.TagFilters ruleData)).map
              projectionOf)) := by
  intro d
  induction d with
  | zero =>
    intro j st fuel hj hp hr hf
    obtain ⟨fuel, rfl⟩ : ∃ f, fuel = f + 1 := ⟨fuel - 1, by omega⟩
    have hjk : j = k := by omega
    subst hjk
    have hresp := hok j (le_refl j)
    unfold listRespAt at hresp
    rw [← hr, ← hp] at hresp
    cases hcall : api.ListSecurityMonitoringRules st.remote config.PageSize st.pageNumber with
    | mk answer s1 =>
      rw [hcall] at hresp
      cases answer with
      | error err => exact absurd hresp (by simp)
      | ok resp =>
        try simp only at hresp
        unfold listLoop
        simp only [CallWithErrorHandling, hcall, hresp]
        simp only [stopsAt, ListResponse.rows, decide_eq_true_eq] at hstop
        cases hdata : (pages j).data with
        | none => simp [hp, ListResponse.rows, hdata]
        | some data =>
          rw [hdata] at hstop
          simp only [Option.getD_some] at hstop
          simp only [hp, hdata]
          by_cases hlen : data.length = 0
          · have : data = [] := List.length_eq_zero.1 hlen
            subst this
            simp [ListResponse.rows, hdata]
          · simp only [hlen, if_false]
            by_cases hps : (data.length : Int) < config.PageSize
            · simp [hps, hdata, ListResponse.rows, pageLoop_pageRules]
            · have hne : data ≠ [] := fun h => hlen (by simp [h])
              have hmax : config.MaxPages > 0 ∧ ((j : Int) + 1) ≥ config.MaxPages := by
                rcases hstop with h | h | h
                · exact absurd h hne
                · exact absurd h hps
                · exact h
              have hmax2 : config.MaxPages > 0 ∧
                  (((j + 1 : Nat)) : Int) ≥ config.MaxPages := by
                refine ⟨hmax.1, ?_⟩
                push_cast
                exact hmax.2
              simp only [hps, if_false, hmax2, and_self, if_true]
              simp [hdata, ListResponse.rows, pageLoop_pageRules]
  | succ d ih =>
    intro j st fuel hj hp hr hf
    obtain ⟨fuel, rfl⟩ : ∃ f, fuel = f + 1 := ⟨fuel - 1, by omega⟩
    have hjk : j < k := by omega
    have hresp := hok j (le_of_lt hjk)
    have hns := hmin j hjk
    unfold listRespAt at hresp
    rw [← hr, ← hp] at hresp
    cases hcall : api.ListSecurityMonitoringRules st.remote config.PageSize st.pageNumber with
    | mk answer s1 =>
      rw [hcall] at hresp
      cases answer with
      | error err => exact absurd hresp (by simp)
      | ok resp =>
        try simp only at hresp
        have hs1 : s1 = listStateAt api config.PageSize s (j + 1) := by
          show s1 = (api.ListSecurityMonitoringRules (listStateAt api config.PageSize s j)
            config.PageSize j).2
          rw [← hr, ← hp, hcall]
        unfold listLoop
        simp only [CallWithErrorHandling, hcall, hresp]
        simp only [stopsAt, ListResponse.rows, decide_eq_false_iff_not, not_or, not_and] at hns
        obtain ⟨hne, hps, hmax⟩ := hns
        cases hdata : (pages j).data with
        | none => rw [hdata] at hne; simp at hne
        | some data =>
          rw [hdata] at hne hps
          simp only [Option.getD_some] at hne hps
          have hlen : ¬ data.length = 0 := fun h => hne (List.length_eq_zero.1 h)
          have hmax2 : ¬ (config.MaxPages > 0 ∧
              (((j + 1 : Nat)) : Int) ≥ config.MaxPages) := by
            rintro ⟨h1, h2⟩
            apply hmax h1
            push_cast at h2
            exact h2
          simp only [hp, hdata, hlen, if_false, hps, hmax2]
          generalize hst : (ListLoop.mk _ (j + 1) _ _ s1 _ : ListLoop σ) = st3
          have hpn : st3.pageNumber = j + 1 := by rw [← hst]
          have hrm : st3.remote = listStateAt api config.PageSize s (j + 1) := by
            rw [← hst, ← hs1]
          have hcl : st3.calls = st.calls ++ [ApiCall.list config.PageSize j] := by rw [← hst]
          have hrl : st3.result.Rules = st.result.Rules ++
              ((pages j).rows.filter (fun ruleData =>
                decodesAsRule ruleData && passesFilters sys config.TagFilters ruleData)).map
                projectionOf := by
            rw [← hst]
            simp [pageLoop_pageRules, hdata, ListResponse.rows]
          obtain ⟨st2, h1, h2, h3⟩ := ih (j + 1) st3 fuel (by omega) hpn hrm (by omega)
          refine ⟨st2, h1, ?_, ?_⟩
          · rw [h2, hcl, List.range'_succ j (d + 1)]
            simp
          · rw [h3, hrl, List.range'_succ j (d + 1)]
            simp

/-- A run of `ProcessRuleListing` against a remote that answers the pages
`pages 0, ..., pages k` and whose first stop condition holds at `k`. -/
theorem ProcessRuleListing_run {σ : Type} (sys : Sys) (api : Remote σ)
    (config : PaginationConfig) (s : σ) (pages : Nat → ListResponse) (k : Nat)
    (hok : ∀ i ≤ k, listRespAt api config.PageSize s i = .ok (pages i))
    (hstop : stopsAt config pages k = true)
    (hmin : ∀ i < k, stopsAt config pages i = false)
    (fuel : Nat) (hfuel : k < fuel) :
    ∃ (result : PaginatedResult) (s2 : σ),
      ProcessRuleListing fuel sys api s config
        = some (.ok result, s2, (List.range (k + 1)).map (ApiCall.list config.PageSize)) ∧
      result.Rules = (((List.range (k + 1)).flatMap (fun i => (pages i).rows)).filter
        (fun ruleData =>
          decodesAsRule ruleData && passesFilters sys config.TagFilters ruleData)).map
        projectionOf := by
  obtain ⟨st2, h1, h2, h3⟩ := listLoop_run sys api config s pages k hok hstop hmin k 0
    { result := { TotalRules := 0, TotalPages := 0, Rules := [] },
      pageNumber := 0, ruleCounter := 0, totalProcessedRules := 0,
      remote := s, calls := [] } fuel (by omega) rfl rfl hfuel
  have hrules : st2.result.Rules
      = (((List.range (k + 1)).flatMap (fun i => (pages i).rows)).filter
        (fun ruleData =>
          decodesAsRule ruleData && passesFilters sys config.TagFilters ruleData)).map
        projectionOf := by
    rw [h3, List.filter_flatMap, List.map_flatMap, List.range_eq_range']
    simp
  have hcalls : st2.calls = (List.range (k + 1)).map (ApiCall.list config.PageSize) := by
    rw [h2, List.range_eq_range']
    simp
  unfold ProcessRuleListing
  simp only [h1]
  by_cases hc : config.TagFilters.length > 0
  · refine ⟨{ st2.result with TotalRules := st2.ruleCounter }, st2.remote, ?_, ?_⟩
    · simp only [hc, if_true, hcalls]
      split <;> rfl
    · exact hrules
  · refine ⟨st2.result, st2.remote, ?_, hrules⟩
    simp only [hc, if_false, hcalls]
    split <;> rfl

/-! ## Claims on the lister -/

/-- C5 as stated fails: with no filter configured, a fetched element of the
`data` array that is not a JSON object is not returned, because the
extraction of its tags fails and the rule is skipped. -/
theorem C5_undecodable_rule_skipped :
    (fakeOddPages 0).rows.length = 2 ∧
    ProcessRuleListing 5 (fakeSys false ⟨0, 0, [], []⟩)
        (fakeRemote fakeOddPages (fun _ => .ok ⟨none⟩) true) () ⟨5, 0, []⟩
      = some (.ok ⟨2, 0, [⟨"x1", false, "R1"⟩]⟩, (), [ApiCall.list 5 0]) := by
  refine ⟨by rfl, by rfl⟩

/-- C5, amended: when the remote answers the pages `pages 0, ..., pages k`
and the listing stops at `k`, `ProcessRuleListing` returns without error, and
its `Rules` are exactly, in fetch order, the projections of the fetched
elements that decode as a rule object (the extraction of their tags succeeds)
and for which the filter list is empty or some tag contains some filter as a
substring in lower case; with no filters every fetched element that decodes
is returned, and when no fetched element passes the filter the result has
zero rules. -/
theorem C5_listing_filter {σ : Type} (sys : Sys) (api : Remote σ)
    (config : PaginationConfig) (s : σ) (pages : Nat → ListResponse) (k : Nat)
    (hok : ∀ i ≤ k, listRespAt api config.PageSize s i = .ok (pages i))
    (hstop : stopsAt config pages k = true)
    (hmin : ∀ i < k, stopsAt config pages i = false)
    (fuel : Nat) (hfuel : k < fuel) :
    ∃ (result : PaginatedResult) (s2 : σ) (calls : List ApiCall),
      ProcessRuleListing fuel sys api s config = some (.ok result, s2, calls) ∧
      result.Rules = (((List.range (k + 1)).flatMap (fun i => (pages i).rows)).filter
        (fun ruleData =>
          decodesAsRule ruleData && passesFilters sys config.TagFilters ruleData)).map
        projectionOf ∧
      (config.TagFilters = [] →
        result.Rules
          = (((List.range (k + 1)).flatMap (fun i => (pages i).rows)).filter
              decodesAsRule).map projectionOf) ∧
      ((∀ ruleData ∈ (List.range (k + 1)).flatMap (fun i => (pages i).rows),
          passesFilters sys config.TagFilters ruleData = false) →
        result.Rules = []) := by
  obtain ⟨result, s2, hrun, hrules⟩ :=
    ProcessRuleListing_run sys api config s pages k hok hstop hmin fuel hfuel
  refine ⟨result, s2, _, hrun, hrules, ?_, ?_⟩
  · intro hnone
    rw [hrules]
    congr 1
    apply List.filter_congr
    intro ruleData _
    simp [passesFilters, hnone]
  · intro hall
    rw [hrules, List.filter_eq_nil_iff.2 (fun ruleData h => by simp [hall ruleData h])]
    rfl

theorem C5_listing_filter_witness :
    (∀ i ≤ 1, listRespAt (fakeRemote fakePages (fun _ => .ok ⟨none⟩) true) 2 () i
      = .ok (fakePages i)) ∧
    stopsAt ⟨2, 0, ["Prod"]⟩ fakePages 1 = true ∧
    (∀ i < 1, stopsAt ⟨2, 0, ["Prod"]⟩ fakePages i = false) ∧
    (∃ (result : PaginatedResult) (s2 : Unit) (calls : List ApiCall),
      ProcessRuleListing 5 (fakeSys false ⟨0, 0, [], []⟩)
        (fakeRemote fakePages (fun _ => .ok ⟨none⟩) true) () ⟨2, 0, ["Prod"]⟩
        = some (.ok result, s2, calls) ∧
      result.Rules = (((List.range (1 + 1)).flatMap (fun i => (fakePages i).rows)).filter
        (fun ruleData => decodesAsRule ruleData &&
          passesFilters (fakeSys false ⟨0, 0, [], []⟩) ["Prod"] ruleData)).map projectionOf) ∧
    ProcessRuleListing 5 (fakeSys false ⟨0, 0, [], []⟩)
        (fakeRemote fakePages (fun _ => .ok ⟨none⟩) true) () ⟨2, 0, ["Prod"]⟩
      = some (.ok ⟨2, 1, [⟨"x1", false, "R1"⟩, ⟨"x3", false, "R3"⟩]⟩, (),
          [ApiCall.list 2 0, ApiCall.list 2 1]) := by
  refine ⟨fun i _ => decodeResponse_encodePage _, by decide, by decide, ?_, by rfl⟩
  obtain ⟨result, s2, calls, h1, h2, -, -⟩ :=
    C5_listing_filter (fakeSys false ⟨0, 0, [], []⟩)
      (fakeRemote fakePages (fun _ => .ok ⟨none⟩) true) ⟨2, 0, ["Prod"]⟩ () fakePages 1
      (fun i _ => decodeResponse_encodePage _) (by decide) (by decide) 5 (by decide)
  exact ⟨result, s2, calls, h1, h2⟩

/-- C6: when the remote answers the pages `pages 0, pages 1, ...` and `k` is
the smallest index at which the stop condition holds (the page is empty, or
has fewer rows than `PageSize`, or `MaxPages > 0` and `k + 1 ≥ MaxPages`),
`ProcessRuleListing` returns after requesting exactly the pages `0, 1, ..., k`
in this order, each with the configured page size; with `MaxPages > 0` that is
at most `MaxPages` requests. -/
theorem C6_pagination_stop {σ : Type} (sys : Sys) (api : Remote σ)
    (config : PaginationConfig) (s : σ) (pages : Nat → ListResponse) (k : Nat)
    (hok : ∀ i ≤ k, listRespAt api config.PageSize s i = .ok (pages i))
    (hstop : stopsAt config pages k = true)
    (hmin : ∀ i < k, stopsAt config pages i = false)
    (fuel : Nat) (hfuel : k < fuel) :
    ∃ (result : PaginatedResult) (s2 : σ) (calls : List ApiCall),
      ProcessRuleListing fuel sys api s config = some (.ok result, s2, calls) ∧
      calls = (List.range (k + 1)).map (ApiCall.list config.PageSize) ∧
      (config.MaxPages > 0 → (calls.length : Int) ≤ config.MaxPages) := by
  obtain ⟨result, s2, hrun, -⟩ :=
    ProcessRuleListing_run sys api config s pages k hok hstop hmin fuel hfuel
  refine ⟨result, s2, _, hrun, rfl, ?_⟩
  intro hpos
  simp only [List.length_map, List.length_range]
  by_contra hgt
  have hk : 0 < k := by
    by_contra h0
    have : k = 0 := by omega
    subst this
    simp at hgt
    omega
  have := hmin (k - 1) (by omega)
  simp only [stopsAt, decide_eq_false_iff_not, not_or, not_and] at this
  apply this.2.2 hpos
  have : ((k - 1 : Nat) : Int) + 1 = (k : Int) := by omega
  rw [this]
  push_cast at hgt
  omega

theorem C6_pagination_stop_witness :
    (∀ i ≤ 1, listRespAt (fakeRemote fakePages (fun _ => .ok ⟨none⟩) true) 2 () i
      = .ok (fakePages i)) ∧
    stopsAt ⟨2, 0, []⟩ fakePages 1 = true ∧
    (∀ i < 1, stopsAt ⟨2, 0, []⟩ fakePages i = false) ∧
    ∃ (result : PaginatedResult) (s2 : Unit) (calls : List ApiCall),
      ProcessRuleListing 2 (fakeSys false ⟨0, 0, [], []⟩)
        (fakeRemote fakePages (fun _ => .ok ⟨none⟩) true) () ⟨2, 0, []⟩
        = some (.ok result, s2, calls) ∧
      calls = [ApiCall.list 2 0, ApiCall.list 2 1] := by
  refine ⟨fun i _ => decodeResponse_encodePage _, by decide, by decide, ?_⟩
  obtain ⟨result, s2, calls, h1, h2, -⟩ :=
    C6_pagination_stop (fakeSys false ⟨0, 0, [], []⟩)
      (fakeRemote fakePages (fun _ => .ok ⟨none⟩) true) ⟨2, 0, []⟩ () fakePages 1
      (fun i _ => decodeResponse_encodePage _) (by decide) (by decide) 2 (by decide)
  exact ⟨result, s2, calls, h1, h2⟩

/-! ## Lemmas on the tagger -/

/-- The function `TagSingleStandardRule` does what the specification expects
for one rule: its result, the state it leaves and the calls it makes. -/
theorem TagSingleStandardRule_eq {σ : Type} (api : Remote σ) (s : σ)
    (matchedRule : MatchedRule) (config : TaggingConfig) :
    TagSingleStandardRule api s matchedRule config
      = (expectedResult api config (matchedRule, s),
          stateAfterRule api config (matchedRule, s),
          expectedCalls api config (matchedRule, s)) := by
  unfold TagSingleStandardRule expectedResult stateAfterRule expectedCalls
  cases hget : GetExistingStandardRuleTags api s matchedRule.ID with
  | mk out s1 =>
    cases out with
    | none => rfl
    | some fetched =>
      cases fetched with
      | error err => rfl
      | ok existingTags =>
        cases hdry : config.DryRun with
        | true => simp
        | false =>
          simp only [Bool.false_eq_true, if_false]
          cases hupd : api.UpdateSecurityMonitoringRule s1 matchedRule.ID
              (MergeTags existingTags matchedRule.Tags config) with
          | mk out2 s2 => cases out2 <;> rfl

theorem expectedResult_eq_none {σ : Type} (api : Remote σ) (config : TaggingConfig)
    (p : MatchedRule × σ) :
    expectedResult api config p = none ↔ fetchCrashes api p = true := by
  unfold expectedResult fetchCrashes
  cases hget : GetExistingStandardRuleTags api p.2 p.1.ID with
  | mk out s1 =>
    cases out with
    | none => simp
    | some fetched =>
      cases fetched with
      | error err => simp
      | ok existingTags =>
        cases hdry : config.DryRun with
        | true => simp
        | false =>
          simp only [Bool.false_eq_true, if_false]
          cases (api.UpdateSecurityMonitoringRule s1 p.1.ID
              (MergeTags existingTags p.1.Tags config)).1 <;> simp

/-- In a dry run the expected result is the expected dry-run result. -/
theorem expectedResult_dryRun {σ : Type} (api : Remote σ) (config : TaggingConfig)
    (p : MatchedRule × σ) (hdry : config.DryRun = true) :
    expectedResult api config p = expectedDryRunResult api config p := by
  unfold expectedResult expectedDryRunResult
  cases hget : GetExistingStandardRuleTags api p.2 p.1.ID with
  | mk out s1 =>
    cases out with
    | none => rfl
    | some fetched =>
      cases fetched with
      | error err => rfl
      | ok existingTags => simp [hdry]

/-- What the loop of `TagRulesFromMatchResult` does: its call log and the
state it leaves, whether it panics, and its variables when it does not. -/
theorem tagLoop_spec {σ : Type} (api : Remote σ) (config : TaggingConfig)
    (rules : List MatchedRule) (st : TagLoop σ) :
    (tagLoop api config rules st).2.2
        = st.calls ++ (tagSchedule api config st.remote rules).flatMap
            (expectedCalls api config) ∧
    (tagLoop api config rules st).2.1 = remoteAfter api config st.remote rules ∧
    ((tagLoop api config rules st).1 = none ↔
      ∃ p ∈ tagSchedule api config st.remote rules, fetchCrashes api p = true) ∧
    ∀ b : BatchTaggingResult, (tagLoop api config rules st).1 = some b →
      b.Results = st.batchResult.Results ++
        (tagSchedule api config st.remote rules).filterMap (expectedResult api config) ∧
      b.SkippedRules = st.batchResult.SkippedRules ++
        (rules.filter (fun r => decide (r.Tags = []))).map MatchedRule.ID ∧
      b.TotalRules = st.batchResult.TotalRules ∧
      b.SuccessfulTags = st.batchResult.SuccessfulTags +
        ((tagSchedule api config st.remote rules).filterMap
          (expectedResult api config)).countP (fun r => r.Success) ∧
      b.FailedTags = st.batchResult.FailedTags +
        ((tagSchedule api config st.remote rules).filterMap
          (expectedResult api config)).countP (fun r => !r.Success) ∧
      (tagSchedule api config st.remote rules).map Prod.fst
        = rules.filter (fun r => decide (r.Tags ≠ [])) := by
  induction rules generalizing st with
  | nil => simp [tagLoop, tagSchedule, remoteAfter]
  | cons r rest ih =>
    by_cases hskip : r.Tags.length = 0
    · have hskip2 : r.Tags = [] := List.length_eq_zero.1 hskip
      obtain ⟨h1, h2, h3, h4⟩ := ih
        { st with batchResult :=
            { st.batchResult with SkippedRules := st.batchResult.SkippedRules ++ [r.ID] } }
      unfold tagLoop tagSchedule remoteAfter
      simp only [hskip, if_true]
      refine ⟨h1, h2, h3, fun b hb => ?_⟩
      obtain ⟨g1, g2, g3, g4, g5, g6⟩ := h4 b hb
      refine ⟨g1, ?_, g3, g4, g5, ?_⟩
      · rw [g2]; simp [List.filter_cons, hskip2]
      · rw [g6]; simp [List.filter_cons, hskip2]
    · have hskip2 : ¬ r.Tags = [] := fun h => hskip (by simp [h])
      unfold tagLoop tagSchedule remoteAfter
      simp only [hskip, if_false, TagSingleStandardRule_eq]
      cases hres : expectedResult api config (r, st.remote) with
      | none =>
        have hcrash := (expectedResult_eq_none api config (r, st.remote)).1 hres
        simp [hcrash]
      | some result =>
        have hcrash : fetchCrashes api (r, st.remote) = false := by
          cases hc : fetchCrashes api (r, st.remote) with
          | false => rfl
          | true =>
            rw [(expectedResult_eq_none api config (r, st.remote)).2 hc] at hres
            exact absurd hres (by simp)
        simp only [hcrash, Bool.false_eq_true, if_false]
        generalize hst : (TagLoop.mk _ (stateAfterRule api config (r, st.remote)) _ : TagLoop σ)
          = st3
        have e1 : st3.remote = stateAfterRule api config (r, st.remote) := by rw [← hst]
        have e2 : st3.calls = st.calls ++ expectedCalls api config (r, st.remote) := by
          rw [← hst]
        have e3 : st3.batchResult.Results = st.batchResult.Results ++ [result] := by
          rw [← hst]; split <;> rfl
        have e4 : st3.batchResult.SkippedRules = st.batchResult.SkippedRules := by
          rw [← hst]; split <;> rfl
        have e5 : st3.batchResult.TotalRules = st.batchResult.TotalRules := by
          rw [← hst]; split <;> rfl
        have e6 : st3.batchResult.SuccessfulTags
            = st.batchResult.SuccessfulTags + (if result.Success then 1 else 0) := by
          rw [← hst]; split <;> rfl
        have e7 : st3.batchResult.FailedTags
            = st.batchResult.FailedTags + (if result.Success then 0 else 1) := by
          rw [← hst]; split <;> rfl
        obtain ⟨h1, h2, h3, h4⟩ := ih st3
        rw [e1] at h1 h2 h3 h4
        refine ⟨?_, h2, ?_, fun b hb => ?_⟩
        · rw [h1, e2]; simp
        · rw [h3]; simp [hcrash]
        · obtain ⟨g1, g2, g3, g4, g5, g6⟩ := h4 b hb
          refine ⟨?_, ?_, ?_, ?_, ?_, ?_⟩
          · rw [g1, e3]; simp [hres]
          · rw [g2, e4]; simp [List.filter_cons, hskip2]
          · rw [g3, e5]
          · rw [g4, e6]
            simp only [List.filterMap_cons, hres, List.countP_cons]
            cases result.Success <;> (simp; try omega)
          · rw [g5, e7]
            simp only [List.filterMap_cons, hres, List.countP_cons]
            cases result.Success <;> (simp; try omega)
          · simp [g6, List.filter_cons, hskip2]

/-- The rules the tagger fetches are the first of the rules with a non-empty
tag list. -/
theorem tagSchedule_prefix {σ : Type} (api : Remote σ) (config : TaggingConfig) (s : σ)
    (rules : List MatchedRule) :
    (tagSchedule api config s rules).map Prod.fst
      <+: rules.filter (fun r => decide (r.Tags ≠ [])) := by
  induction rules generalizing s with
  | nil => simp [tagSchedule]
  | cons r rest ih =>
    by_cases hskip : r.Tags = []
    · have hlen : r.Tags.length = 0 := by simp [hskip]
      simpa [tagSchedule, hlen, List.filter_cons, hskip] using ih s
    · have hlen : ¬ r.Tags.length = 0 := fun h => hskip (List.length_eq_zero.1 h)
      cases hc : fetchCrashes api (r, s) with
      | true =>
        simp only [tagSchedule, hlen, hc, if_false, if_true, List.map_cons, List.map_nil,
          List.filter_cons, ne_eq, hskip, not_false_eq_true, decide_True]
        exact List.prefix_iff_eq_append.2 (by simp)
      | false =>
        simp only [tagSchedule, hlen, hc, if_false, Bool.false_eq_true, List.map_cons,
          List.filter_cons, ne_eq, hskip, not_false_eq_true, decide_True, if_true]
        exact (List.prefix_cons_inj r).2 (by simpa using ih _)

/-- The outcome of `TagRulesFromMatchResult`: its call log and the state it
leaves, whether it panics, and its batch result when it does not. -/
theorem TagRulesFromMatchResult_eq {σ : Type} (api : Remote σ) (s : σ)
    (matchResult : MatchResult) (config : TaggingConfig) :
    (TagRulesFromMatchResult api s matchResult config).2.2
        = (tagSchedule api config s matchResult.MatchedRules).flatMap
            (expectedCalls api config) ∧
    (TagRulesFromMatchResult api s matchResult config).2.1
        = remoteAfter api config s matchResult.MatchedRules ∧
    ((TagRulesFromMatchResult api s matchResult config).1 = none ↔
      ∃ p ∈ tagSchedule api config s matchResult.MatchedRules, fetchCrashes api p = true) ∧
    ((∀ p ∈ tagSchedule api config s matchResult.MatchedRules, fetchCrashes api p = false) →
      ∃ b : BatchTaggingResult,
        (TagRulesFromMatchResult api s matchResult config).1 = some (.ok b)) ∧
    ∀ out, (TagRulesFromMatchResult api s matchResult config).1 = some out →
      ∃ b : BatchTaggingResult, out = .ok b ∧
        b.Results = (tagSchedule api config s matchResult.MatchedRules).filterMap
          (expectedResult api config) ∧
        b.SkippedRules = (matchResult.MatchedRules.filter
          (fun r => decide (r.Tags = []))).map MatchedRule.ID ∧
        b.TotalRules = matchResult.MatchedRules.length ∧
        b.SuccessfulTags = b.Results.countP (fun r => r.Success) ∧
        b.FailedTags = b.Results.countP (fun r => !r.Success) ∧
        (tagSchedule api config s matchResult.MatchedRules).map Prod.fst
          = matchResult.MatchedRules.filter (fun r => decide (r.Tags ≠ [])) := by
  obtain ⟨h1, h2, h3, h4⟩ := tagLoop_spec api config matchResult.MatchedRules
    { batchResult :=
        { TotalRules := matchResult.MatchedRules.length, SuccessfulTags := 0,
          FailedTags := 0, Results := [], SkippedRules := [] },
      remote := s, calls := [] }
  simp only [List.nil_append] at h1 h2 h3 h4
  unfold TagRulesFromMatchResult
  cases hloop : tagLoop api config matchResult.MatchedRules
      { batchResult :=
          { TotalRules := matchResult.MatchedRules.length, SuccessfulTags := 0,
            FailedTags := 0, Results := [], SkippedRules := [] },
        remote := s, calls := [] } with
  | mk out rest =>
    obtain ⟨s1, calls⟩ := rest
    rw [hloop] at h1 h2 h3 h4
    simp only at h1 h2 h3 h4
    cases out with
    | none =>
      refine ⟨h1, h2, ?_, ?_, ?_⟩
      · simpa using h3
      · intro hall
        obtain ⟨p, hp, hc⟩ := h3.1 rfl
        rw [hall p hp] at hc
        exact absurd hc (by decide)
      · intro out hout
        exact absurd hout (by simp)
    | some b =>
      refine ⟨h1, h2, ?_, fun _ => ⟨b, rfl⟩, ?_⟩
      · constructor
        · intro h; exact absurd h (by simp)
        · intro h; exact absurd (h3.2 h) (by simp)
      · intro out hout
        simp only [Option.some.injEq] at hout
        obtain ⟨g1, g2, g3, g4, g5, g6⟩ := h4 b rfl
        refine ⟨b, hout.symm, g1, g2, g3, ?_, ?_, g6⟩
        · rw [g4, g1]; simp
        · rw [g5, g1]; simp

theorem mem_expectedCalls {σ : Type} (api : Remote σ) (config : TaggingConfig)
    (p : MatchedRule × σ) (c : ApiCall) (hc : c ∈ expectedCalls api config p) :
    c = ApiCall.get p.1.ID ∨
      (config.DryRun = false ∧ ∃ existingTags,
        (GetExistingStandardRuleTags api p.2 p.1.ID).1 = some (.ok existingTags) ∧
        c = ApiCall.update p.1.ID (MergeTags existingTags p.1.Tags config)) := by
  unfold expectedCalls at hc
  cases hget : (GetExistingStandardRuleTags api p.2 p.1.ID).1 with
  | none =>
    rw [hget] at hc
    simp only [List.mem_singleton] at hc
    exact Or.inl hc
  | some fetched =>
    rw [hget] at hc
    cases fetched with
    | error err =>
      simp only [List.mem_singleton] at hc
      exact Or.inl hc
    | ok existingTags =>
      cases hdry : config.DryRun with
      | true =>
        simp only [hdry, if_true, List.mem_singleton] at hc
        exact Or.inl hc
      | false =>
        simp only [hdry, Bool.false_eq_true, if_false, List.mem_cons, List.mem_singleton,
          List.not_mem_nil, or_false] at hc
        rcases hc with h | h
        · exact Or.inl h
        · exact Or.inr ⟨rfl, existingTags, rfl, h⟩

theorem filterMap_map_some {α β : Type} (f : α → Option β) (l : List α)
    (h : ∀ a ∈ l, f a ≠ none) : (l.filterMap f).map some = l.map f := by
  induction l with
  | nil => rfl
  | cons a l ih =>
    have ha := h a (List.mem_cons_self a l)
    cases hfa : f a with
    | none => exact absurd hfa ha
    | some b =>
      simp only [List.filterMap_cons, hfa, List.map_cons]
      rw [ih (fun x hx => h x (List.mem_cons_of_mem a hx))]

/-- Whenever `TagRulesFromMatchResult` returns, it returns no error and its
batch result satisfies the accounting equations. -/
theorem TagRulesFromMatchResult_accounting {σ : Type} (api : Remote σ) (s : σ)
    (matchResult : MatchResult) (config : TaggingConfig)
    (out : Except String BatchTaggingResult)
    (h : (TagRulesFromMatchResult api s matchResult config).1 = some out) :
    ∃ b : BatchTaggingResult, out = .ok b ∧
      b.SuccessfulTags + b.FailedTags + b.SkippedRules.length = b.TotalRules ∧
      b.TotalRules = matchResult.MatchedRules.length ∧
      b.Results.length = b.SuccessfulTags + b.FailedTags ∧
      b.SuccessfulTags = b.Results.countP (fun r => r.Success) := by
  obtain ⟨-, -, hnone, -, hret⟩ := TagRulesFromMatchResult_eq api s matchResult config
  obtain ⟨b, hb, hres, hskip, htotal, hsucc, hfail, hfst⟩ := hret out h
  have hno : ∀ p ∈ tagSchedule api config s matchResult.MatchedRules,
      expectedResult api config p ≠ none := by
    intro p hp hc
    have := hnone.2 ⟨p, hp, (expectedResult_eq_none api config p).1 hc⟩
    rw [h] at this
    exact absurd this (by simp)
  have hlen : b.Results.length = b.SuccessfulTags + b.FailedTags := by
    rw [hsucc, hfail, List.length_eq_countP_add_countP (fun r => r.Success) b.Results]
    congr 1
    apply List.countP_congr
    intro r _
    simp
  have hlen2 : b.Results.length
      = (matchResult.MatchedRules.filter (fun r => decide (r.Tags ≠ []))).length := by
    have h1 := congrArg List.length (filterMap_map_some _ _ hno)
    have h2 := congrArg List.length hfst
    rw [← hres] at h1
    simp only [List.length_map] at h1 h2
    rw [h1, h2]
  have hsplit : (matchResult.MatchedRules.filter (fun r => decide (r.Tags ≠ []))).length
      + (matchResult.MatchedRules.filter (fun r => decide (r.Tags = []))).length
      = matchResult.MatchedRules.length := by
    rw [← List.countP_eq_length_filter, ← List.countP_eq_length_filter,
      List.length_eq_countP_add_countP (fun r => decide (r.Tags ≠ [])) matchResult.MatchedRules]
    congr 1
    apply List.countP_congr
    intro r _
    simp
  refine ⟨b, hb, ?_, htotal, hlen, hsucc⟩
  rw [← hlen, hlen2, hskip, List.length_map, htotal]
  exact hsplit

/-! ## Claims on the tagger -/

/-- C7 fails on the code: when the fetch for a matched rule is answered by a
rule that is not a standard rule, the tagger panics on the nil pointer; the
matched rule with an empty tag list that comes after it is never appended to
`SkippedRules` and no batch result is returned. With a standard answer the
same match result gives the skip list `[x2]`. -/
theorem C7_skip_lost_on_panic :
    TagRulesFromMatchResult (fakeRemote fakePages (fun _ => .ok ⟨none⟩) true) ()
        ⟨2, 2, 2, [⟨"x1", "R1", ["a", "b"], false⟩, ⟨"x2", "R2", [], false⟩]⟩
        ⟨false, false, [], 5⟩
      = (none, (), [ApiCall.get "x1"]) ∧
    TagRulesFromMatchResult
        (fakeRemote fakePages (fun _ => .ok ⟨some ⟨some ["b", "c"]⟩⟩) true) ()
        ⟨2, 2, 2, [⟨"x1", "R1", ["a", "b"], false⟩, ⟨"x2", "R2", [], false⟩]⟩
        ⟨false, false, [], 5⟩
      = (some (.ok ⟨2, 1, 0, [⟨"x1", "R1", true, ["b", "c"], ["b", "c", "a"], ""⟩], ["x2"]⟩),
          (), [ApiCall.get "x1", ApiCall.update "x1" ["b", "c", "a"]]) := by
  refine ⟨by rfl, by rfl⟩

/-- C8 as stated fails: in dry-run mode a rule that is not skipped and whose
fetch fails gets a tagging result with `Success = false`. -/
theorem C8_dry_run_fetch_failure :
    TagRulesFromMatchResult (fakeRemote fakePages (fun _ => .error "not found") true) ()
        ⟨1, 1, 1, [⟨"x1", "R1", ["a", "b"], false⟩]⟩ ⟨true, false, [], 5⟩
      = (some (.ok ⟨1, 0, 1,
            [⟨"x1", "R1", false, [], [],
              "Failed to get existing tags: failed to get rule x1: not found"⟩], []⟩),
          (), [ApiCall.get "x1"]) := by
  rfl

/-- C8, amended: in dry-run mode, when every fetch the tagger makes is
answered by a standard rule or by an error, every matched rule that is not
skipped gets one tagging result, in order; when the fetch of its existing tags
succeeds the result has `Success = true`, `OldTags` the fetched tags and
`NewTags` the merge of the fetched and the desired tags; when the fetch fails
the result has `Success = false` and carries the error text; no update call is
made. -/
theorem C8_dry_run_results {σ : Type} (api : Remote σ) (s : σ) (matchResult : MatchResult)
    (config : TaggingConfig) (hdry : config.DryRun = true)
    (hstd : ∀ p ∈ tagSchedule api config s matchResult.MatchedRules,
      fetchCrashes api p = false) :
    ∃ (b : BatchTaggingResult) (s2 : σ) (calls : List ApiCall),
      TagRulesFromMatchResult api s matchResult config = (some (.ok b), s2, calls) ∧
      b.Results.map some = (tagSchedule api config s matchResult.MatchedRules).map
        (expectedDryRunResult api config) ∧
      (∀ p ∈ tagSchedule api config s matchResult.MatchedRules,
        expectedDryRunResult api config p ≠ none) ∧
      (tagSchedule api config s matchResult.MatchedRules).map Prod.fst
        = matchResult.MatchedRules.filter (fun r => decide (r.Tags ≠ [])) ∧
      ∀ c ∈ calls, c.isUpdate = false := by
  obtain ⟨hcalls, hstate, -, hok, hret⟩ := TagRulesFromMatchResult_eq api s matchResult config
  obtain ⟨b, hb⟩ := hok hstd
  obtain ⟨b2, hb2, hres, -, -, -, -, hfst⟩ := hret _ hb
  simp only [Except.ok.injEq] at hb2
  subst hb2
  have hno : ∀ p ∈ tagSchedule api config s matchResult.MatchedRules,
      expectedResult api config p ≠ none := by
    intro p hp hc
    have := (expectedResult_eq_none api config p).1 hc
    rw [hstd p hp] at this
    exact absurd this (by decide)
  refine ⟨b, _, _, Prod.ext hb (Prod.ext rfl rfl), ?_, ?_, hfst, ?_⟩
  · rw [hres, filterMap_map_some _ _ hno]
    apply List.map_congr_left
    intro p _
    exact expectedResult_dryRun api config p hdry
  · intro p hp
    rw [← expectedResult_dryRun api config p hdry]
    exact hno p hp
  · intro c hc
    rw [hcalls] at hc
    obtain ⟨p, -, hcp⟩ := List.mem_flatMap.1 hc
    rcases mem_expectedCalls api config p c hcp with h | ⟨hfalse, -⟩
    · rw [h]; rfl
    · rw [hdry] at hfalse
      exact absurd hfalse (by decide)

theorem C8_dry_run_results_witness :
    (⟨true, false, [], 5⟩ : TaggingConfig).DryRun = true ∧
    (∀ p ∈ tagSchedule (fakeRemote fakePages (fun _ => .ok ⟨some ⟨some ["b", "c"]⟩⟩) true)
        ⟨true, false, [], 5⟩ () [⟨"x1", "R1", ["a", "b"], false⟩],
      fetchCrashes (fakeRemote fakePages (fun _ => .ok ⟨some ⟨some ["b", "c"]⟩⟩) true) p
        = false) ∧
    (∃ (b : BatchTaggingResult) (s2 : Unit) (calls : List ApiCall),
      TagRulesFromMatchResult
          (fakeRemote fakePages (fun _ => .ok ⟨some ⟨some ["b", "c"]⟩⟩) true) ()
          ⟨1, 1, 1, [⟨"x1", "R1", ["a", "b"], false⟩]⟩ ⟨true, false, [], 5⟩
        = (some (.ok b), s2, calls) ∧
      ∀ c ∈ calls, c.isUpdate = false) ∧
    TagRulesFromMatchResult
        (fakeRemote fakePages (fun _ => .ok ⟨some ⟨some ["b", "c"]⟩⟩) true) ()
        ⟨1, 1, 1, [⟨"x1", "R1", ["a", "b"], false⟩]⟩ ⟨true, false, [], 5⟩
      = (some (.ok ⟨1, 1, 0, [⟨"x1", "R1", true, ["b", "c"], ["b", "c", "a"], ""⟩], []⟩), (),
          [ApiCall.get "x1"]) := by
  have hstd : ∀ p ∈ tagSchedule
      (fakeRemote fakePages (fun _ => .ok ⟨some ⟨some ["b", "c"]⟩⟩) true)
      ⟨true, false, [], 5⟩ () [⟨"x1", "R1", ["a", "b"], false⟩],
      fetchCrashes (fakeRemote fakePages (fun _ => .ok ⟨some ⟨some ["b", "c"]⟩⟩) true) p
        = false := by
    intro p hp
    have hp2 : p ∈ [((⟨"x1", "R1", ["a", "b"], false⟩ : MatchedRule), ())] := hp
    rw [List.mem_singleton] at hp2
    subst hp2
    rfl
  refine ⟨rfl, hstd, ?_, by rfl⟩
  obtain ⟨b, s2, calls, h1, -, -, -, h2⟩ :=
    C8_dry_run_results (fakeRemote fakePages (fun _ => .ok ⟨some ⟨some ["b", "c"]⟩⟩) true) ()
      ⟨1, 1, 1, [⟨"x1", "R1", ["a", "b"], false⟩]⟩ ⟨true, false, [], 5⟩ rfl hstd
  exact ⟨b, s2, calls, h1, h2⟩

/-- C9: the call log of `TagRulesFromMatchResult` is, rule after rule over the
matched rules it fetches (the rules with a non-empty desired tag list, in
order, up to a fetch answered by a rule that is not a standard rule, where the
program stops), one fetch of the rule, followed by one update exactly when the
fetch succeeded and `DryRun` is false, the update being for that rule's id
with the merge of the fetched and the desired tags. So an update call in the
log implies a live run, a rule with a non-empty tag list and a successful
fetch; a live run with a successful fetch of a rule puts its update in the
log; no rule gets more than one update; in dry-run mode the log has no
update; and when the batch returns, every rule with a non-empty tag list has
been fetched. -/
theorem C9_update_calls {σ : Type} (api : Remote σ) (s : σ) (matchResult : MatchResult)
    (config : TaggingConfig) :
    (TagRulesFromMatchResult api s matchResult config).2.2
        = (tagSchedule api config s matchResult.MatchedRules).flatMap
            (expectedCalls api config) ∧
    (TagRulesFromMatchResult api s matchResult config).2.1
        = remoteAfter api config s matchResult.MatchedRules ∧
    (tagSchedule api config s matchResult.MatchedRules).map Prod.fst
        <+: matchResult.MatchedRules.filter (fun r => decide (r.Tags ≠ [])) ∧
    ((TagRulesFromMatchResult api s matchResult config).1 ≠ none →
      (tagSchedule api config s matchResult.MatchedRules).map Prod.fst
        = matchResult.MatchedRules.filter (fun r => decide (r.Tags ≠ []))) ∧
    (∀ (ruleID : String) (tags : List String),
      ApiCall.update ruleID tags ∈ (TagRulesFromMatchResult api s matchResult config).2.2 →
      config.DryRun = false ∧
      ∃ p ∈ tagSchedule api config s matchResult.MatchedRules, ∃ existingTags,
        p.1.ID = ruleID ∧ p.1 ∈ matchResult.MatchedRules ∧ p.1.Tags ≠ [] ∧
        (GetExistingStandardRuleTags api p.2 p.1.ID).1 = some (.ok existingTags) ∧
        tags = MergeTags existingTags p.1.Tags config) ∧
    (∀ p ∈ tagSchedule api config s matchResult.MatchedRules, ∀ existingTags,
      config.DryRun = false →
      (GetExistingStandardRuleTags api p.2 p.1.ID).1 = some (.ok existingTags) →
      ApiCall.update p.1.ID (MergeTags existingTags p.1.Tags config)
        ∈ (TagRulesFromMatchResult api s matchResult config).2.2) ∧
    (∀ p : MatchedRule × σ,
      ((expectedCalls api config p).filter ApiCall.isUpdate).length ≤ 1) ∧
    (config.DryRun = true →
      ∀ c ∈ (TagRulesFromMatchResult api s matchResult config).2.2, c.isUpdate = false) := by
  obtain ⟨hcalls, hstate, hnone, -, hret⟩ := TagRulesFromMatchResult_eq api s matchResult config
  have hpre := tagSchedule_prefix api config s matchResult.MatchedRules
  refine ⟨hcalls, hstate, hpre, ?_, ?_, ?_, ?_, ?_⟩
  · intro hne
    cases hout : (TagRulesFromMatchResult api s matchResult config).1 with
    | none => exact absurd hout hne
    | some out =>
      obtain ⟨b, -, -, -, -, -, -, hfst⟩ := hret out hout
      exact hfst
  · intro ruleID tags hc
    rw [hcalls] at hc
    obtain ⟨p, hp, hcp⟩ := List.mem_flatMap.1 hc
    have hmem : p.1 ∈ matchResult.MatchedRules.filter (fun r => decide (r.Tags ≠ [])) :=
      hpre.subset (List.mem_map_of_mem Prod.fst hp)
    rw [List.mem_filter] at hmem
    rcases mem_expectedCalls api config p _ hcp with h | ⟨hlive, existingTags, hget, h⟩
    · exact absurd h (by simp)
    · simp only [ApiCall.update.injEq] at h
      exact ⟨hlive, p, hp, existingTags, h.1.symm, hmem.1, by simpa using hmem.2, hget, h.2⟩
  · intro p hp existingTags hlive hget
    rw [hcalls]
    refine List.mem_flatMap.2 ⟨p, hp, ?_⟩
    unfold expectedCalls
    rw [hget]
    simp [hlive]
  · intro p
    unfold expectedCalls
    cases (GetExistingStandardRuleTags api p.2 p.1.ID).1 with
    | none => simp [ApiCall.isUpdate]
    | some fetched =>
      cases fetched with
      | error err => simp [ApiCall.isUpdate]
      | ok existingTags => cases config.DryRun <;> simp [ApiCall.isUpdate]
  · intro hdry c hc
    rw [hcalls] at hc
    obtain ⟨p, -, hcp⟩ := List.mem_flatMap.1 hc
    rcases mem_expectedCalls api config p c hcp with h | ⟨hfalse, -⟩
    · rw [h]; rfl
    · rw [hdry] at hfalse
      exact absurd hfalse (by decide)

/-! ## Claims on persistence -/

/-- The tagging phase returns what `TagRulesFromMatchResult` returns, whether
or not the result file can be written. -/
theorem ProcessRuleTagging_eq {σ : Type} (sys : Sys) (api : Remote σ) (s : σ)
    (matchResult : MatchResult) (config : TaggingConfig) :
    ProcessRuleTagging sys api s matchResult config
      = TagRulesFromMatchResult api s matchResult config := by
  unfold ProcessRuleTagging
  rcases hrun : TagRulesFromMatchResult api s matchResult config with ⟨out, s1, calls⟩
  cases out with
  | none => rfl
  | some res =>
    cases res with
    | error err =>
      obtain ⟨b, hb, -⟩ := TagRulesFromMatchResult_accounting api s matchResult config
        (.error err) (by rw [hrun])
      exact absurd hb (by simp)
    | ok b =>
      simp only
      split <;> rfl

/-- The matching phase turns a failure to save the match result into an error
of the phase, although loading and matching succeeded. -/
theorem ProcessRuleMatching_save_error (sys : Sys)
    (rangeOrder : GoMap InputRule → List (String × InputRule)) (inputFilename : String)
    (resultData : PaginatedResult) (inputData : InputData) (matchResult : MatchResult)
    (err : String) (hload : LoadInputJSON sys inputFilename = .ok inputData)
    (hmatch : MatchRules rangeOrder inputData resultData = .ok matchResult)
    (hsave : SaveResultToFile sys matchResult "MatchResult" "output"
      (FormatSimplifiedResultAny sys) = .error err) :
    ProcessRuleMatching sys rangeOrder inputFilename resultData
      = .error ("failed to save match result: " ++ err) := by
  unfold ProcessRuleMatching
  simp only [hload, hmatch, hsave]

/-- C10 fails for the matching phase: with a file system on which every write
fails, the manifest loads and the rules match, but `ProcessRuleMatching`
returns the save error instead of the match result; on the same system the
listing phase and the tagging phase return their results without error. -/
theorem C10_matching_save_failure_aborts :
    LoadInputJSON (fakeSys true ⟨1, 1, [], [⟨"", false, "R1", ["a", "b"]⟩]⟩) "input.json"
      = .ok ⟨1, 1, [], [⟨"", false, "R1", ["a", "b"]⟩]⟩ ∧
    MatchRules (fun m => m) ⟨1, 1, [], [⟨"", false, "R1", ["a", "b"]⟩]⟩
        ⟨1, 0, [⟨"x1", false, "R1"⟩]⟩
      = .ok ⟨1, 1, 1, [⟨"x1", "R1", ["a", "b"], false⟩]⟩ ∧
    SaveResultToFile (fakeSys true ⟨1, 1, [], [⟨"", false, "R1", ["a", "b"]⟩]⟩)
        (⟨1, 1, 1, [⟨"x1", "R1", ["a", "b"], false⟩]⟩ : MatchResult) "MatchResult" "output"
        (FormatSimplifiedResultAny (fakeSys true ⟨1, 1, [], [⟨"", false, "R1", ["a", "b"]⟩]⟩))
      = .error "failed to write file output/2025-01-01_00-00-00_MatchResult.json: disk full" ∧
    ProcessRuleMatching (fakeSys true ⟨1, 1, [], [⟨"", false, "R1", ["a", "b"]⟩]⟩)
        (fun m => m) "input.json" ⟨1, 0, [⟨"x1", false, "R1"⟩]⟩
      = .error ("failed to save match result: " ++
          "failed to write file output/2025-01-01_00-00-00_MatchResult.json: disk full") ∧
    ProcessRuleListing 5 (fakeSys true ⟨1, 1, [], [⟨"", false, "R1", ["a", "b"]⟩]⟩)
        (fakeRemote fakePages (fun _ => .ok ⟨some ⟨some ["b", "c"]⟩⟩) true) () ⟨2, 0, []⟩
      = some (.ok ⟨3, 1, [⟨"x1", false, "R1"⟩, ⟨"x2", true, "R2"⟩, ⟨"x3", false, "R3"⟩]⟩, (),
          [ApiCall.list 2 0, ApiCall.list 2 1]) ∧
    ProcessRuleTagging (fakeSys true ⟨1, 1, [], [⟨"", false, "R1", ["a", "b"]⟩]⟩)
        (fakeRemote fakePages (fun _ => .ok ⟨some ⟨some ["b", "c"]⟩⟩) true) ()
        ⟨1, 1, 1, [⟨"x1", "R1", ["a", "b"], false⟩]⟩ ⟨false, false, [], 5⟩
      = (some (.ok ⟨1, 1, 0, [⟨"x1", "R1", true, ["b", "c"], ["b", "c", "a"], ""⟩], []⟩), (),
          [ApiCall.get "x1", ApiCall.update "x1" ["b", "c", "a"]]) := by
  refine ⟨by rfl, by rfl, by rfl, by rfl, by rfl, by rfl⟩

/-! ## Claims on the manifest -/

/-- C11 as stated fails: with an empty (zero-byte) manifest file the matcher
returns an error, not a match result. -/
theorem C11_empty_file_is_an_error :
    ProcessRuleMatching { fakeSys false ⟨0, 0, [], []⟩ with ReadFile := fun _ => .ok "" }
        (fun m => m) "input.json" ⟨1, 0, [⟨"x1", false, "R1"⟩]⟩
      = .error "failed to load input JSON: file input.json is empty" := by
  rfl

/-- C11, amended: a manifest file that exists and has no bytes makes
`ProcessRuleMatching` return the error `file ... is empty`; a manifest that
loads with zero rules makes `MatchRules` return `TotalMatches = 0` with no
matched rule and no error, for every listing result, and
`ProcessRuleMatching` returns that result when the result file is saved. -/
theorem C11_empty_manifest (sys : Sys)
    (rangeOrder : GoMap InputRule → List (String × InputRule))
    (hperm : ∀ m, (rangeOrder m).Perm m) (inputFilename : String)
    (resultData : PaginatedResult) :
    (sys.NotExist inputFilename = false → sys.ReadFile inputFilename = .ok "" →
      ProcessRuleMatching sys rangeOrder inputFilename resultData
        = .error ("failed to load input JSON: " ++ ("file " ++ inputFilename ++ " is empty"))) ∧
    (∀ inputData : InputData, LoadInputJSON sys inputFilename = .ok inputData →
      inputData.Rules = [] →
      ∃ out : MatchResult, MatchRules rangeOrder inputData resultData = .ok out ∧
        out.TotalMatches = 0 ∧ out.MatchedRules = [] ∧
        ∀ file : String,
          SaveResultToFile sys out "MatchResult" "output" (FormatSimplifiedResultAny sys)
            = .ok file →
          ProcessRuleMatching sys rangeOrder inputFilename resultData = .ok out) := by
  constructor
  · intro hex hread
    unfold ProcessRuleMatching LoadInputJSON
    simp [hex, hread]
    rfl
  · intro inputData hload hrules
    have hnil : rangeOrder (indexInput inputData.Rules []) = [] := by
      have := hperm (indexInput inputData.Rules [])
      rw [hrules] at this ⊢
      simpa [indexInput] using this
    refine ⟨_, MatchRules_eq rangeOrder inputData resultData, ?_, ?_, ?_⟩
    · simp [hnil]
    · simp [hnil]
    · intro file hsave
      unfold ProcessRuleMatching
      simp only [hload, MatchRules_eq rangeOrder inputData resultData, hsave]

theorem C11_empty_manifest_witness :
    (∀ m : GoMap InputRule, ((fun m => m) m : List (String × InputRule)).Perm m) ∧
    (∃ out : MatchResult,
      MatchRules (fun m => m) ⟨0, 0, [], []⟩ ⟨1, 0, [⟨"x1", false, "R1"⟩]⟩ = .ok out ∧
      out.TotalMatches = 0 ∧ out.MatchedRules = []) ∧
    ProcessRuleMatching (fakeSys false ⟨0, 0, [], []⟩) (fun m => m) "input.json"
        ⟨1, 0, [⟨"x1", false, "R1"⟩]⟩
      = .ok ⟨0, 0, 1, []⟩ := by
  refine ⟨fun m => List.Perm.refl m, ?_, by rfl⟩
  obtain ⟨out, h1, h2, h3, -⟩ :=
    (C11_empty_manifest (fakeSys false ⟨0, 0, [], []⟩) (fun m => m)
      (fun m => List.Perm.refl m) "input.json" ⟨1, 0, [⟨"x1", false, "R1"⟩]⟩).2
      ⟨0, 0, [], []⟩ (by rfl) rfl
  exact ⟨out, h1, h2, h3⟩

/-! ## Lemmas on the configuration loader -/

theorem Getenv_Setenv_of_ne (env : Environ) (key value name : String) (h : name ≠ key) :
    Getenv (Setenv env key value) name = Getenv env name := by
  unfold Setenv Getenv
  split
  · rfl
  · simp [h]

/-- The .env file never changes a variable that is set to a non-empty value. -/
theorem envFileLoop_keeps (lines : List String) (env : Environ) (name : String)
    (h : Getenv env name ≠ "") : Getenv (envFileLoop lines env) name = Getenv env name := by
  induction lines generalizing env with
  | nil => rfl
  | cons text rest ih =>
    unfold envFileLoop
    simp only
    split
    · exact ih env h
    · split
      · exact ih env h
      · split
        · rename_i parts _ hempty
          have hne : name ≠ TrimSpace ⟨parts.1⟩ := by
            intro hc
            rw [hc] at h
            exact h hempty
          have hkeep := Getenv_Setenv_of_ne env (TrimSpace ⟨parts.1⟩) (TrimSpace ⟨parts.2⟩)
            name hne
          rw [ih _ (by rw [hkeep]; exact h), hkeep]
        · exact ih env h

theorem LoadEnvFile_keeps (conv : Conv) (filename : String) (env : Environ) (name : String)
    (h : Getenv env name ≠ "") :
    Getenv (LoadEnvFile conv filename env).2 name = Getenv env name := by
  unfold LoadEnvFile
  split
  · rfl
  · split
    · exact envFileLoop_keeps _ env name h
    · exact envFileLoop_keeps _ env name h

theorem Getenv_Setenv_self (env : Environ) (key value : String)
    (h : settable key value = true) : Getenv (Setenv env key value) key = value := by
  unfold settable at h
  unfold Setenv Getenv
  simp only [Bool.not_eq_true', decide_eq_false_iff_not] at h
  rw [if_neg h]
  simp

theorem Setenv_refused (env : Environ) (key value : String)
    (h : settable key value = false) : Setenv env key value = env := by
  unfold settable at h
  unfold Setenv
  simp only [Bool.not_eq_false', decide_eq_true_eq] at h
  rw [if_pos h]

theorem dotenvValue_cons (key value : String) (entries : List (String × String))
    (name : String) :
    dotenvValue ((key, value) :: entries) name
      = if (decide (key = name ∧ value ≠ "") && settable key value) = true then value
        else dotenvValue entries name := by
  unfold dotenvValue
  rw [List.find?_cons]
  cases h : (decide (key = name ∧ value ≠ "") && settable key value) with
  | true => simp [h]
  | false => simp [h]

/-- The scanned lines, applied to an environment in which a variable is unset
or empty, leave it with the value the .env entries give it. -/
theorem envFileLoop_fills (lines : List String) (env : Environ) (name : String)
    (h : Getenv env name = "") :
    Getenv (envFileLoop lines env) name = dotenvValue (dotenvEntries lines) name := by
  induction lines generalizing env with
  | nil => rw [envFileLoop, h]; rfl
  | cons text rest ih =>
    unfold envFileLoop dotenvEntries
    simp only
    by_cases hskip : TrimSpace text = "" ∨ "#".data.isPrefixOf (TrimSpace text).data
    · rw [if_pos hskip, if_pos hskip]
      exact ih env h
    · rw [if_neg hskip, if_neg hskip]
      cases hsplit : splitFirst '=' (TrimSpace text).data with
      | none => exact ih env h
      | some parts =>
        simp only
        rw [dotenvValue_cons]
        by_cases hkey : TrimSpace ⟨parts.1⟩ = name
        · have hempty : Getenv env (TrimSpace ⟨parts.1⟩) = "" := by rw [hkey]; exact h
          rw [if_pos hempty]
          cases hset : settable (TrimSpace ⟨parts.1⟩) (TrimSpace ⟨parts.2⟩) with
          | false =>
            rw [Setenv_refused env _ _ hset]
            simp only [Bool.and_false, Bool.false_eq_true, if_false]
            exact ih env h
          | true =>
            have hval := Getenv_Setenv_self env _ (TrimSpace ⟨parts.2⟩) hset
            rw [hkey] at hval
            by_cases hv : TrimSpace ⟨parts.2⟩ = ""
            · have hcond : (decide (TrimSpace ⟨parts.1⟩ = name ∧ TrimSpace ⟨parts.2⟩ ≠ "")
                  && true) = false := by simp [hv]
              rw [hcond]
              simp only [Bool.false_eq_true, if_false]
              apply ih
              rw [hkey, hval, hv]
            · have hcond : (decide (TrimSpace ⟨parts.1⟩ = name ∧ TrimSpace ⟨parts.2⟩ ≠ "")
                  && true) = true := by simp [hkey, hv]
              rw [hcond, if_pos rfl]
              have hne : Getenv (Setenv env name (TrimSpace ⟨parts.2⟩)) name ≠ "" := by
                rw [hval]; exact hv
              rw [hkey, envFileLoop_keeps rest _ name hne, hval]
        · have hcond : (decide (TrimSpace ⟨parts.1⟩ = name ∧ TrimSpace ⟨parts.2⟩ ≠ "")
              && settable (TrimSpace ⟨parts.1⟩) (TrimSpace ⟨parts.2⟩)) = false := by
            simp [hkey]
          rw [hcond]
          simp only [Bool.false_eq_true, if_false]
          by_cases hempty : Getenv env (TrimSpace ⟨parts.1⟩) = ""
          · rw [if_pos hempty]
            apply ih
            rw [Getenv_Setenv_of_ne env _ _ name (fun hc => hkey hc.symm)]
            exact h
          · rw [if_neg hempty]
            exact ih env h

theorem LoadEnvFile_fills (conv : Conv) (filename : String) (env : Environ)
    (lines : List String) (scanErr : Option String) (name : String)
    (hopen : conv.OpenScan filename = .ok (lines, scanErr)) (h : Getenv env name = "") :
    Getenv (LoadEnvFile conv filename env).2 name = dotenvValue (dotenvEntries lines) name := by
  unfold LoadEnvFile
  rw [hopen]
  cases scanErr with
  | none => exact envFileLoop_fills lines env name h
  | some err => exact envFileLoop_fills lines env name h

/-- The outcome of `LoadConfig` by cases on the two credentials. -/
theorem LoadConfig_outcome (conv : Conv) (env : Environ) :
    (LoadConfig conv env).2 = (LoadEnvFile conv ".env" env).2 ∧
    (Getenv (LoadEnvFile conv ".env" env).2 "DD_API_KEY" = "" →
      (LoadConfig conv env).1 = .error "DD_API_KEY environment variable is required") ∧
    (Getenv (LoadEnvFile conv ".env" env).2 "DD_API_KEY" ≠ "" →
      Getenv (LoadEnvFile conv ".env" env).2 "DD_APP_KEY" = "" →
      (LoadConfig conv env).1 = .error "DD_APP_KEY environment variable is required") ∧
    (Getenv (LoadEnvFile conv ".env" env).2 "DD_API_KEY" ≠ "" →
      Getenv (LoadEnvFile conv ".env" env).2 "DD_APP_KEY" ≠ "" →
      ∃ config : Config, (LoadConfig conv env).1 = .ok config ∧
        config.DDSite = (if Getenv (LoadEnvFile conv ".env" env).2 "DD_SITE" = ""
          then "datadoghq.com" else Getenv (LoadEnvFile conv ".env" env).2 "DD_SITE") ∧
        config.DDAPIKey = Getenv (LoadEnvFile conv ".env" env).2 "DD_API_KEY" ∧
        config.DDAppKey = Getenv (LoadEnvFile conv ".env" env).2 "DD_APP_KEY") := by
  generalize henv2 : (LoadEnvFile conv ".env" env).2 = env2
  refine ⟨?_, ?_, ?_, ?_⟩
  · unfold LoadConfig
    simp only [henv2]
    split
    · rfl
    · split
      · rfl
      · split <;> rfl
  · intro h1
    unfold LoadConfig
    simp only [henv2, h1, if_true]
  · intro h1 h2
    unfold LoadConfig
    simp only [henv2, h1, h2, if_true, if_false]
  · intro h1 h2
    unfold LoadConfig
    simp only [henv2, h1, h2, if_false]
    by_cases h3 : Getenv env2 "DD_SITE" = ""
    · simp only [h3, if_true]
      exact ⟨_, rfl, rfl, rfl, rfl⟩
    · simp only [h3, if_false]
      exact ⟨_, rfl, rfl, rfl, rfl⟩

/-- Malformed numbers and booleans fall back to the defaults. -/
theorem LoadConfig_fallbacks (conv : Conv) (env : Environ) (config : Config)
    (h : (LoadConfig conv env).1 = .ok config) :
    ((∃ e, conv.ParseInt (Getenv (LoadEnvFile conv ".env" env).2 "PAGE_SIZE") = .error e) →
      config.Pagination.PageSize = 100) ∧
    ((∃ e, conv.ParseInt (Getenv (LoadEnvFile conv ".env" env).2 "MAX_PAGES") = .error e) →
      config.Pagination.MaxPages = 0) ∧
    ((∃ e, conv.ParseBool (Getenv (LoadEnvFile conv ".env" env).2 "DRYRUN") = .error e) →
      config.Tagging.DryRun = false) ∧
    ((∃ e, conv.ParseBool (Getenv (LoadEnvFile conv ".env" env).2 "OVERWRITE_TAGS")
        = .error e) → config.Tagging.OverwriteTags = false) ∧
    ((∃ e, conv.Atoi (Getenv (LoadEnvFile conv ".env" env).2 "MAX_CONCURRENCY") = .error e) →
      config.Tagging.MaxConcurrency = 5) := by
  generalize henv2 : (LoadEnvFile conv ".env" env).2 = env2 at h ⊢
  unfold LoadConfig at h
  simp only [henv2] at h
  have hcfg : config.Pagination.PageSize
        = (if Getenv env2 "PAGE_SIZE" ≠ "" then
            match conv.ParseInt (Getenv env2 "PAGE_SIZE") with
            | .ok parsed => parsed
            | .error _ => 100
          else 100) ∧
      config.Pagination.MaxPages
        = (if Getenv env2 "MAX_PAGES" ≠ "" then
            match conv.ParseInt (Getenv env2 "MAX_PAGES") with
            | .ok parsed => parsed
            | .error _ => 0
          else 0) ∧
      config.Tagging.DryRun
        = (if Getenv env2 "DRYRUN" ≠ "" then
            match conv.ParseBool (Getenv env2 "DRYRUN") with
            | .ok parsed => parsed
            | .error _ => false
          else false) ∧
      config.Tagging.OverwriteTags
        = (if Getenv env2 "OVERWRITE_TAGS" ≠ "" then
            match conv.ParseBool (Getenv env2 "OVERWRITE_TAGS") with
            | .ok parsed => parsed
            | .error _ => false
          else false) ∧
      config.Tagging.MaxConcurrency
        = (if Getenv env2 "MAX_CONCURRENCY" ≠ "" then
            match conv.Atoi (Getenv env2 "MAX_CONCURRENCY") with
            | .ok parsed => if parsed > 0 then parsed else 5
            | .error _ => 5
          else 5) := by
    split at h
    · exact absurd h (by simp)
    · split at h
      · exact absurd h (by simp)
      · split at h
        · simp only [Except.ok.injEq] at h
          subst h
          exact ⟨rfl, rfl, rfl, rfl, rfl⟩
        · simp only [Except.ok.injEq] at h
          subst h
          exact ⟨rfl, rfl, rfl, rfl, rfl⟩
  obtain ⟨c1, c2, c3, c4, c5⟩ := hcfg
  refine ⟨?_, ?_, ?_, ?_, ?_⟩
  · rintro ⟨e, he⟩; rw [c1, he]; simp
  · rintro ⟨e, he⟩; rw [c2, he]; simp
  · rintro ⟨e, he⟩; rw [c3, he]; simp
  · rintro ⟨e, he⟩; rw [c4, he]; simp
  · rintro ⟨e, he⟩; rw [c5, he]; simp

/-! ## Claims on the configuration loader -/

/-- C12 as stated fails: with an environment in which neither credential is
set and a .env file that gives both, `LoadConfig` returns a configuration and
no error. -/
theorem C12_credentials_from_dotenv :
    Getenv (fun _ => none) "DD_API_KEY" = "" ∧ Getenv (fun _ => none) "DD_APP_KEY" = "" ∧
    (LoadConfig (fakeConv (some ["DD_API_KEY=k1", "# site", "DD_APP_KEY = a1"]))
        (fun _ => none)).1
      = .ok ⟨"datadoghq.com", "k1", "a1", "input.json", ⟨100, 0, []⟩, ⟨false, false, [], 5⟩⟩ := by
  refine ⟨rfl, rfl, by rfl⟩

/-- C12, amended: `LoadConfig` returns an error if and only if `DD_API_KEY` or
`DD_APP_KEY` is empty in the environment after the optional .env file has
been applied; otherwise it returns a configuration whose `DDSite` is the value
of `DD_SITE` in that environment, or `datadoghq.com` when that value is empty,
whatever the other variables hold: a malformed `PAGE_SIZE`, `MAX_PAGES`,
`DRYRUN`, `OVERWRITE_TAGS` or `MAX_CONCURRENCY` gives the default. The .env
file never changes a variable that is set to a non-empty value; to a variable
that is not set, and for which no line of the file has an empty value, it
gives the value of the first `KEY=VALUE` line for it that `os.Setenv` accepts,
and leaves it empty when there is no such line; and when the file cannot be
opened the environment is the one `LoadConfig` was started in. -/
theorem C12_credentials (conv : Conv) (env : Environ) :
    ((∃ err, (LoadConfig conv env).1 = .error err) ↔
      (Getenv (LoadEnvFile conv ".env" env).2 "DD_API_KEY" = "" ∨
        Getenv (LoadEnvFile conv ".env" env).2 "DD_APP_KEY" = "")) ∧
    (∀ config : Config, (LoadConfig conv env).1 = .ok config →
      config.DDSite = (if Getenv (LoadEnvFile conv ".env" env).2 "DD_SITE" = ""
        then "datadoghq.com" else Getenv (LoadEnvFile conv ".env" env).2 "DD_SITE") ∧
      ((∃ e, conv.ParseInt (Getenv (LoadEnvFile conv ".env" env).2 "PAGE_SIZE") = .error e) →
        config.Pagination.PageSize = 100) ∧
      ((∃ e, conv.ParseInt (Getenv (LoadEnvFile conv ".env" env).2 "MAX_PAGES") = .error e) →
        config.Pagination.MaxPages = 0) ∧
      ((∃ e, conv.ParseBool (Getenv (LoadEnvFile conv ".env" env).2 "DRYRUN") = .error e) →
        config.Tagging.DryRun = false) ∧
      ((∃ e, conv.ParseBool (Getenv (LoadEnvFile conv ".env" env).2 "OVERWRITE_TAGS")
          = .error e) → config.Tagging.OverwriteTags = false) ∧
      ((∃ e, conv.Atoi (Getenv (LoadEnvFile conv ".env" env).2 "MAX_CONCURRENCY")
          = .error e) → config.Tagging.MaxConcurrency = 5)) ∧
    (∀ name : String, Getenv env name ≠ "" →
      Getenv (LoadEnvFile conv ".env" env).2 name = Getenv env name) ∧
    (∀ (lines : List String) (scanErr : Option String) (name : String),
      conv.OpenScan ".env" = .ok (lines, scanErr) → env name = none →
      (∀ e ∈ dotenvEntries lines, e.1 = name → e.2 ≠ "") →
      Getenv (LoadEnvFile conv ".env" env).2 name = dotenvValue (dotenvEntries lines) name) ∧
    ((∃ err, conv.OpenScan ".env" = .error err) → (LoadEnvFile conv ".env" env).2 = env) := by
  obtain ⟨-, hapi, happ, hok⟩ := LoadConfig_outcome conv env
  refine ⟨⟨?_, ?_⟩, ?_, fun name h => LoadEnvFile_keeps conv ".env" env name h,
    fun lines scanErr name hopen hunset _ =>
      LoadEnvFile_fills conv ".env" env lines scanErr name hopen
        (by unfold Getenv; rw [hunset]; rfl), ?_⟩
  · rintro ⟨err, herr⟩
    by_contra hboth
    simp only [not_or] at hboth
    obtain ⟨config, hcfg, -⟩ := hok hboth.1 hboth.2
    rw [hcfg] at herr
    exact absurd herr (by simp)
  · intro h
    by_cases h1 : Getenv (LoadEnvFile conv ".env" env).2 "DD_API_KEY" = ""
    · exact ⟨_, hapi h1⟩
    · rcases h with h | h
      · exact absurd h h1
      · exact ⟨_, happ h1 h⟩
  · intro config hcfg
    refine ⟨?_, LoadConfig_fallbacks conv env config hcfg⟩
    by_cases h1 : Getenv (LoadEnvFile conv ".env" env).2 "DD_API_KEY" = ""
    · rw [hapi h1] at hcfg
      exact absurd hcfg (by simp)
    · by_cases h2 : Getenv (LoadEnvFile conv ".env" env).2 "DD_APP_KEY" = ""
      · rw [happ h1 h2] at hcfg
        exact absurd hcfg (by simp)
      · obtain ⟨config2, hcfg2, hsite, -⟩ := hok h1 h2
        rw [hcfg2] at hcfg
        simp only [Except.ok.injEq] at hcfg
        rw [← hcfg]
        exact hsite
  · rintro ⟨err, herr⟩
    unfold LoadEnvFile
    rw [herr]

theorem C12_credentials_witness :
    Getenv (LoadEnvFile (fakeConv (some ["DD_API_KEY=k1", "# site", "DD_APP_KEY = a1", "X="]))
      ".env" (fun _ => none)).2 "DD_APP_KEY" = "a1" ∧
    ((∃ err, (LoadConfig (fakeConv (some ["DD_API_KEY=k1", "# site", "DD_APP_KEY = a1", "X="]))
        (fun _ => none)).1 = .error err) ↔
      (Getenv (LoadEnvFile (fakeConv (some ["DD_API_KEY=k1", "# site", "DD_APP_KEY = a1", "X="]))
          ".env" (fun _ => none)).2 "DD_API_KEY" = "" ∨
        Getenv (LoadEnvFile (fakeConv (some ["DD_API_KEY=k1", "# site", "DD_APP_KEY = a1", "X="]))
          ".env" (fun _ => none)).2 "DD_APP_KEY" = "")) := by
  obtain ⟨hiff, -, -, hfill, -⟩ :=
    C12_credentials (fakeConv (some ["DD_API_KEY=k1", "# site", "DD_APP_KEY = a1", "X="]))
      (fun _ => none)
  have hentries : dotenvEntries ["DD_API_KEY=k1", "# site", "DD_APP_KEY = a1", "X="]
      = [("DD_API_KEY", "k1"), ("DD_APP_KEY", "a1"), ("X", "")] := by rfl
  refine ⟨?_, hiff⟩
  rw [hfill ["DD_API_KEY=k1", "# site", "DD_APP_KEY = a1", "X="] none "DD_APP_KEY" rfl rfl
    (by rw [hentries]; decide), hentries]
  rfl

/-! ## Lemmas on duplicate keys -/

/-- Under a key that is in the index, the index holds the last element of the
list with that key. -/
theorem GoMap.index_get?_last {α : Type} (key : α → String) (l : List α) (k : String) (v : α)
    (h : GoMap.get? (l.foldl (fun (m : GoMap α) r => GoMap.set m (key r) r) []) k = some v) :
    l.reverse.find? (fun r => decide (key r = k)) = some v := by
  rw [GoMap.get?_index] at h
  simpa [GoMap.get?] using h

theorem find?_ruleKey {α : Type} (name : α → String) (isDefault : α → Bool) (l : List α)
    (n : String) (d : Bool) :
    l.find? (fun r => decide (ruleKey (name r) (isDefault r) = ruleKey n d))
      = l.find? (fun r => decide (name r = n ∧ isDefault r = d)) := by
  congr 1
  funext r
  by_cases h : name r = n ∧ isDefault r = d
  · simp [h.1, h.2]
  · have : ¬ ruleKey (name r) (isDefault r) = ruleKey n d :=
      fun hk => h (ruleKey_injective _ _ _ _ hk)
    simp [h, this]

/-- The emitted rules have pairwise different (name, isDefault). -/
theorem MatchRules_nodup (rangeOrder : GoMap InputRule → List (String × InputRule))
    (hperm : ∀ m, (rangeOrder m).Perm m) (inputData : InputData)
    (resultData : PaginatedResult) :
    (((rangeOrder (indexInput inputData.Rules [])).filterMap (fun e =>
        ((indexResult resultData.Rules []).get? e.1).map (fun resultRule =>
          ({ ID := resultRule.ID, Name := e.2.Name, Tags := e.2.Tags,
             IsDefault := e.2.IsDefault } : MatchedRule)))).map
      (fun mr => (mr.Name, mr.IsDefault))).Nodup := by
  rw [List.map_filterMap]
  have hnd : ((rangeOrder (indexInput inputData.Rules [])).map Prod.fst).Nodup :=
    ((hperm _).map Prod.fst).nodup_iff.2 (indexInput_nodup inputData.Rules)
  have hpw := List.Pairwise.and_mem.1 (List.pairwise_map.1 hnd)
  refine List.Pairwise.filterMap _ ?_ hpw
  rintro e1 e2 ⟨h1, h2, hne⟩ b1 hb1 b2 hb2 heq
  simp only [Option.mem_def, Option.map_eq_some'] at hb1 hb2
  obtain ⟨mr1, ⟨rr1, -, rfl⟩, rfl⟩ := hb1
  obtain ⟨mr2, ⟨rr2, -, rfl⟩, rfl⟩ := hb2
  simp only [Prod.mk.injEq] at heq
  have k1 := (mem_rangeOrder rangeOrder hperm inputData.Rules e1 h1).2
  have k2 := (mem_rangeOrder rangeOrder hperm inputData.Rules e2 h2).2
  apply hne
  rw [← k1, ← k2, heq.1, heq.2]

/-! ## Claims on duplicate keys -/

/-- C13: every matched rule `MatchRules` emits carries the id of the last
listed rule with its (name, isDefault) and the tags of the last manifest rule
with its (name, isDefault); and the emitted rules have pairwise different
(name, isDefault), so a key shared by several rules still gives one matched
rule. The order in which the runtime ranges over the index is arbitrary, each
entry being visited once. -/
theorem C13_last_entry_wins (rangeOrder : GoMap InputRule → List (String × InputRule))
    (hperm : ∀ m, (rangeOrder m).Perm m) (inputData : InputData)
    (resultData : PaginatedResult) :
    ∃ out : MatchResult, MatchRules rangeOrder inputData resultData = .ok out ∧
      (∀ mr ∈ out.MatchedRules, ∃ (ir : InputRule) (rr : SimplifiedRule),
        inputData.Rules.reverse.find?
            (fun r => decide (r.Name = mr.Name ∧ r.IsDefault = mr.IsDefault)) = some ir ∧
        resultData.Rules.reverse.find?
            (fun r => decide (r.Name = mr.Name ∧ r.IsDefault = mr.IsDefault)) = some rr ∧
        mr.ID = rr.ID ∧ mr.Tags = ir.Tags) ∧
      (out.MatchedRules.map (fun mr => (mr.Name, mr.IsDefault))).Nodup := by
  refine ⟨_, MatchRules_eq rangeOrder inputData resultData, ?_,
    MatchRules_nodup rangeOrder hperm inputData resultData⟩
  intro mr hmr
  simp only [List.mem_filterMap, Option.map_eq_some'] at hmr
  obtain ⟨e, he, rr, hrr, rfl⟩ := hmr
  have hm : (e.1, e.2) ∈ indexInput inputData.Rules [] := (hperm _).mem_iff.1 he
  have hget := (GoMap.mem_iff_get? _ (indexInput_nodup inputData.Rules) e.1 e.2).1 hm
  have hkey := (indexInput_get?_some inputData.Rules e.1 e.2 hget).2
  have h1 := GoMap.index_get?_last (fun r : InputRule => ruleKey r.Name r.IsDefault)
    inputData.Rules e.1 e.2 hget
  have h2 := GoMap.index_get?_last (fun r : SimplifiedRule => ruleKey r.Name r.IsDefault)
    resultData.Rules e.1 rr hrr
  rw [← hkey] at h1 h2
  rw [find?_ruleKey (fun r : InputRule => r.Name) (fun r => r.IsDefault)] at h1
  rw [find?_ruleKey (fun r : SimplifiedRule => r.Name) (fun r => r.IsDefault)] at h2
  exact ⟨e.2, rr, h1, h2, rfl, rfl⟩

theorem C13_last_entry_wins_witness :
    (∀ m : GoMap InputRule, ((fun m => m) m : List (String × InputRule)).Perm m) ∧
    (∃ out : MatchResult,
      MatchRules (fun m => m)
        ⟨2, 2, [], [⟨"", false, "R1", ["old"]⟩, ⟨"", false, "R1", ["new"]⟩]⟩
        ⟨2, 0, [⟨"x1", false, "R1"⟩, ⟨"x2", false, "R1"⟩]⟩ = .ok out ∧
      (out.MatchedRules.map (fun mr => (mr.Name, mr.IsDefault))).Nodup) ∧
    MatchRules (fun m => m)
        ⟨2, 2, [], [⟨"", false, "R1", ["old"]⟩, ⟨"", false, "R1", ["new"]⟩]⟩
        ⟨2, 0, [⟨"x1", false, "R1"⟩, ⟨"x2", false, "R1"⟩]⟩
      = .ok ⟨1, 2, 2, [⟨"x2", "R1", ["new"], false⟩]⟩ := by
  refine ⟨fun m => List.Perm.refl m, ?_, by rfl⟩
  obtain ⟨out, h, -, hn⟩ := C13_last_entry_wins (fun m => m) (fun m => List.Perm.refl m)
    ⟨2, 2, [], [⟨"", false, "R1", ["old"]⟩, ⟨"", false, "R1", ["new"]⟩]⟩
    ⟨2, 0, [⟨"x1", false, "R1"⟩, ⟨"x2", false, "R1"⟩]⟩
  exact ⟨out, h, hn⟩

/-! ## Claims on the batch accounting -/

/-- C14 fails on the code: when the fetch for a matched rule is answered by a
rule that is not a standard rule, `GetExistingStandardRuleTags` reads the tags
through a nil pointer and panics; `TagRulesFromMatchResult` and
`ProcessRuleTagging` then return no batch result at all, the failure is not
recorded as a result with `Success = false`, and the matched rule that comes
after it is never fetched. -/
theorem C14_batch_aborted_by_panic :
    (GetExistingStandardRuleTags
        (fakeRemote fakePages
          (fun ruleID => if ruleID = "x1" then .ok ⟨none⟩ else .ok ⟨some ⟨some ["b"]⟩⟩) true)
        () "x1").1 = none ∧
    TagRulesFromMatchResult
        (fakeRemote fakePages
          (fun ruleID => if ruleID = "x1" then .ok ⟨none⟩ else .ok ⟨some ⟨some ["b"]⟩⟩) true)
        () ⟨1, 1, 1, [⟨"x1", "R1", ["a", "b"], false⟩]⟩ ⟨false, false, [], 5⟩
      = (none, (), [ApiCall.get "x1"]) ∧
    TagRulesFromMatchResult
        (fakeRemote fakePages
          (fun ruleID => if ruleID = "x1" then .ok ⟨none⟩ else .ok ⟨some ⟨some ["b"]⟩⟩) true)
        () ⟨2, 2, 2, [⟨"x1", "R1", ["a", "b"], false⟩, ⟨"x3", "R3", ["c"], false⟩]⟩
        ⟨false, false, [], 5⟩
      = (none, (), [ApiCall.get "x1"]) ∧
    ProcessRuleTagging (fakeSys false ⟨0, 0, [], []⟩)
        (fakeRemote fakePages
          (fun ruleID => if ruleID = "x1" then .ok ⟨none⟩ else .ok ⟨some ⟨some ["b"]⟩⟩) true)
        () ⟨2, 2, 2, [⟨"x1", "R1", ["a", "b"], false⟩, ⟨"x3", "R3", ["c"], false⟩]⟩
        ⟨true, false, [], 5⟩
      = (none, (), [ApiCall.get "x1"]) ∧
    TagRulesFromMatchResult
        (fakeRemote fakePages
          (fun ruleID => if ruleID = "x1" then .ok ⟨none⟩ else .ok ⟨some ⟨some ["b"]⟩⟩) true)
        () ⟨1, 1, 1, [⟨"x3", "R3", ["c"], false⟩]⟩ ⟨false, false, [], 5⟩
      = (some (.ok ⟨1, 1, 0, [⟨"x3", "R3", true, ["b"], ["b", "c"], ""⟩], []⟩), (),
          [ApiCall.get "x3", ApiCall.update "x3" ["b", "c"]]) := by
  refine ⟨by rfl, by rfl, by rfl, by rfl, by rfl⟩

/-! ## Lemmas on re-running the merge -/

theorem keepFirst_nodup (l : List String) : (keepFirst l).Nodup := by
  induction l with
  | nil => simp [keepFirst]
  | cons a l ih =>
    rw [keepFirst, List.nodup_cons]
    refine ⟨?_, ih.filter _⟩
    simp [List.mem_filter]

theorem appendSpec_nodup (existing desired excluded : List String) :
    (appendSpec existing desired excluded).Nodup := by
  unfold appendSpec
  refine List.Nodup.append (keepFirst_nodup _) (keepFirst_nodup _) ?_
  intro t h1 h2
  rw [mem_keepFirst] at h1 h2
  rw [List.mem_filter] at h2
  have := h2.2
  simp only [decide_eq_true_eq] at this
  exact this.2 h1

theorem appendSpec_idem (existing desired excluded : List String) :
    appendSpec (appendSpec existing desired excluded) desired excluded
      = appendSpec existing desired excluded := by
  have hnil : desired.filter (fun t => decide (t ∉ excluded ∧
      t ∉ appendSpec existing desired excluded)) = [] := by
    apply List.filter_eq_nil_iff.2
    intro t ht
    simp only [decide_eq_true_eq, not_and, not_not]
    intro hx
    by_cases he : t ∈ existing
    · unfold appendSpec
      exact List.mem_append_left _ ((mem_keepFirst t existing).2 he)
    · unfold appendSpec
      apply List.mem_append_right
      rw [mem_keepFirst, List.mem_filter]
      exact ⟨ht, by simp [hx, he]⟩
  have hnd := appendSpec_nodup existing desired excluded
  generalize appendSpec existing desired excluded = merged at hnil hnd ⊢
  rw [appendSpec, hnil, keepFirst_of_nodup _ hnd]
  simp [keepFirst]

/-! ## Claims on re-running the merge -/

/-- C15: merging the desired tags into the result of a merge gives that
result again, under either policy; and under the append policy the result has
no duplicate tag and contains every tag of the existing list. -/
theorem C15_merge_idempotent (existing desired : List String) (config : TaggingConfig) :
    MergeTags (MergeTags existing desired config) desired config
        = MergeTags existing desired config ∧
      (config.OverwriteTags = false →
        (MergeTags existing desired config).Nodup ∧
          ∀ t ∈ existing, t ∈ MergeTags existing desired config) := by
  cases h : config.OverwriteTags with
  | true =>
    refine ⟨?_, fun hf => absurd hf (by decide)⟩
    rw [MergeTags_overwrite _ desired config h, MergeTags_overwrite existing desired config h]
  | false =>
    refine ⟨?_, fun _ => ⟨?_, ?_⟩⟩
    · rw [MergeTags_append existing desired config h, MergeTags_append _ desired config h]
      exact appendSpec_idem existing desired config.IncludedTags
    · rw [MergeTags_append existing desired config h]
      exact appendSpec_nodup existing desired config.IncludedTags
    · intro t ht
      rw [MergeTags_append existing desired config h]
      exact List.mem_append_left _ ((mem_keepFirst t existing).2 ht)

end extV2

